/-
Verification of the core logic of `tensor2struct/datasets/spider.py`:
schema-graph construction (`load_tables`), the dataset join
(`SpiderDataset.__init__`), and the metrics aggregator
(`Metrics.add_one` / `Metrics.add_beams` / `Metrics.finalize`).

The Python code is shallowly embedded:

* Python exceptions (IndexError on sequence indexing, AttributeError on a
  `None` table, AssertionError on a duplicate db id, KeyError on a missing
  schema) become `Except String` errors.
* Python sequence indexing `xs[i]` with an `int` index is modelled by
  `pyGet`, which wraps negative indices (`xs[-1]` is the last element) and
  fails outside the range `[-len, len)`.
* The `networkx.DiGraph` foreign-key graph is modelled as an association
  list from ordered node pairs to the `columns` edge attribute;
  `DiGraph.addEdge` overwrites the attribute of an existing edge in place,
  exactly as `nx.DiGraph.add_edge` does.
* External collaborators are parameters: `dataset.add_underscore` is an
  arbitrary `au : String → String`, `evaluation.build_foreign_key_map` an
  arbitrary `bfkm : SchemaDict → κ`, and the external evaluator an
  arbitrary `Evaluator V` record of pure oracle functions.
* Object references (a `Column` holding its `Table`, `foreign_key_for`
  holding a `Column`) become ids; ids coincide with positions, as in the
  source where both come from `enumerate`.
-/
import Mathlib

namespace Spider

/-- Helper for `pySplit`: walk the characters, accumulating the current
token (in reverse); whitespace flushes a non-empty token. -/
def splitWsAux : List Char → List Char → List String
  | [], [] => []
  | [], acc => [String.mk acc.reverse]
  | c :: cs, acc =>
    if c.isWhitespace then
      match acc with
      | [] => splitWsAux cs []
      | _ => String.mk acc.reverse :: splitWsAux cs []
    else splitWsAux cs (c :: acc)

/-- Python `str.split()` with no argument: split on runs of whitespace and
drop empty fragments. -/
def pySplit (s : String) : List String :=
  splitWsAux s.toList []

/-- Python sequence indexing for an `int` index on a sequence of length `n`:
a non-negative index must be `< n`, a negative index wraps from the end and
must be `≥ -n`; anything else is an IndexError (`none`). -/
def pyIdx (n : Nat) (i : Int) : Option Nat :=
  if 0 ≤ i then
    if i < (n : Int) then some i.toNat else none
  else
    if -i ≤ (n : Int) then some (n - (-i).toNat) else none

/-- Python `xs[i]` for an `int` index `i`. -/
def pyGet (xs : List α) (i : Int) : Option α :=
  (pyIdx xs.length i).bind (fun n => xs[n]?)

/-- A raw schema descriptor: the fields of one entry of a Spider
`tables.json` file that `load_tables` reads. -/
structure SchemaDict where
  db_id : String
  table_names : List String
  table_names_original : List String
  column_names : List (Int × String)
  column_names_original : List (Int × String)
  column_types : List String
  primary_keys : List Int
  foreign_keys : List (Int × Int)
deriving DecidableEq, Repr

/-- Embedding of the `Column` attrs class.  `table` and `foreign_key_for`
hold ids (positions) instead of object references. -/
structure Column where
  id : Nat
  table : Option Nat
  name : List String
  unsplit_name : String
  orig_name : String
  type : String
  foreign_key_for : Option Nat := none
deriving DecidableEq, Repr

/-- Embedding of the `Table` attrs class; `columns` and `primary_keys`
hold column ids. -/
structure Table where
  id : Nat
  name : List String
  unsplit_name : String
  orig_name : String
  columns : List Nat := []
  primary_keys : List Nat := []
deriving DecidableEq, Repr

/-- The foreign-key graph: an association list from ordered table-id pairs
to the `columns=(source_column_id, dest_column_id)` edge attribute.  The
attribute keeps the raw Python ints of the descriptor's pair. -/
structure DiGraph where
  edges : List ((Nat × Nat) × (Int × Int))
deriving DecidableEq, Repr

def DiGraph.empty : DiGraph := ⟨[]⟩

/-- Embedding of `nx.DiGraph.add_edge u v columns=c`: if the edge already exists its
attribute is overwritten in place, otherwise the edge is appended. -/
def updEdges (es : List ((Nat × Nat) × (Int × Int))) (k : Nat × Nat) (c : Int × Int) :
    List ((Nat × Nat) × (Int × Int)) :=
  match es with
  | [] => [(k, c)]
  | e :: rest => if e.1 = k then (k, c) :: rest else e :: updEdges rest k c

def DiGraph.addEdge (g : DiGraph) (u v : Nat) (c : Int × Int) : DiGraph :=
  ⟨updEdges g.edges (u, v) c⟩

/-- Embedding of `g.has_edge u v`. -/
def DiGraph.hasEdge (g : DiGraph) (u v : Nat) : Bool :=
  g.edges.any (fun e => e.1 = (u, v))

/-- The `columns` attribute of edge `u → v`, when the edge exists. -/
def DiGraph.edgeCols (g : DiGraph) (u v : Nat) : Option (Int × Int) :=
  (g.edges.find? (fun e => e.1 = (u, v))).map Prod.snd

/-- Embedding of the `Schema` attrs class. -/
structure Schema where
  db_id : String
  tables : List Table
  columns : List Column
  foreign_key_graph : DiGraph
  orig : SchemaDict
deriving DecidableEq, Repr

/-- The `tables` tuple comprehension of `load_tables`: pair the tokenized
and original names positionally (`zip` truncates to the shorter list),
table id = position. -/
def buildTables (au : String → String) (sd : SchemaDict) : List Table :=
  (sd.table_names.zip sd.table_names_original).enum.map
    (fun p =>
      { id := p.1, name := pySplit p.2.1, unsplit_name := p.2.1,
        orig_name := au p.2.2 })

/-- The parallel column descriptors: `zip` of `column_names`,
`column_names_original` and `column_types` (truncating to the shortest). -/
def colTriples (sd : SchemaDict) : List ((Int × String) × (Int × String) × String) :=
  ((sd.column_names.zip sd.column_names_original).zip sd.column_types).map
    (fun p => (p.1.1, p.1.2, p.2))

/-- One element of the `columns` tuple comprehension:
`tables[table_id] if table_id >= 0 else None` raises IndexError when a
non-negative `table_id` is out of range. -/
def buildColumn (au : String → String) (ntables : Nat) (i : Nat)
    (t : (Int × String) × (Int × String) × String) : Except String Column :=
  let tid := t.1.1
  if 0 ≤ tid then
    if tid < (ntables : Int) then
      .ok { id := i, table := some tid.toNat, name := pySplit t.1.2,
            unsplit_name := t.1.2, orig_name := au t.2.1.2, type := t.2.2 }
    else .error "IndexError: tuple index out of range"
  else
    .ok { id := i, table := none, name := pySplit t.1.2,
          unsplit_name := t.1.2, orig_name := au t.2.1.2, type := t.2.2 }

def buildColumnsAux (au : String → String) (ntables : Nat) :
    Nat → List ((Int × String) × (Int × String) × String) → Except String (List Column)
  | _, [] => .ok []
  | i, t :: rest => do
    let c ← buildColumn au ntables i t
    let cs ← buildColumnsAux au ntables (i + 1) rest
    .ok (c :: cs)

def buildColumns (au : String → String) (ntables : Nat) (sd : SchemaDict) :
    Except String (List Column) :=
  buildColumnsAux au ntables 0 (colTriples sd)

/-- Embedding of `column.table.columns.append(column)` for one column: since table ids
are distinct positions, mutating the referenced `Table` object is updating
the unique table with that id. -/
def linkStep (c : Column) (ts : List Table) : List Table :=
  ts.map (fun tb =>
    if c.table = some tb.id then { tb with columns := tb.columns ++ [c.id] } else tb)

/-- The "Link columns to tables" loop. -/
def linkColumns (ts : List Table) (cols : List Column) : List Table :=
  cols.foldl (fun acc c => linkStep c acc) ts

/-- One iteration of the primary-key loop: `columns[column_id]` may raise
IndexError, `column.table.primary_keys` raises AttributeError when the
column is ownerless (`table is None`). -/
def registerPK (cols : List Column) (ts : List Table) (pk : Int) :
    Except String (List Table) :=
  match pyGet cols pk with
  | none => .error "IndexError: tuple index out of range"
  | some c =>
    match c.table with
    | none => .error "AttributeError: NoneType has no attribute primary_keys"
    | some t =>
      .ok (ts.map (fun tb =>
        if tb.id = t then { tb with primary_keys := tb.primary_keys ++ [c.id] } else tb))

/-- One iteration of the foreign-key loop: resolve both columns
(IndexError when out of range), set `source_column.foreign_key_for`, then
add the forward and the reverse edge, each carrying the raw index pair
(AttributeError when either column is ownerless). -/
def registerFK (st : List Column × DiGraph) (fk : Int × Int) :
    Except String (List Column × DiGraph) :=
  match pyGet st.1 fk.1, pyGet st.1 fk.2 with
  | some sc, some dc =>
    let cols2 := st.1.map (fun c =>
      if c.id = sc.id then { c with foreign_key_for := some dc.id } else c)
    match sc.table, dc.table with
    | some ts, some td =>
      .ok (cols2, (st.2.addEdge ts td (fk.1, fk.2)).addEdge td ts (fk.2, fk.1))
    | _, _ => .error "AttributeError: NoneType has no attribute id"
  | _, _ => .error "IndexError: tuple index out of range"

/-- Processing of one `schema_dict` by `load_tables`: build tables and
columns, link columns, register primary keys, register foreign keys. -/
def buildSchema (au : String → String) (sd : SchemaDict) : Except String Schema := do
  let tables0 := buildTables au sd
  let columns ← buildColumns au tables0.length sd
  let tables1 := linkColumns tables0 columns
  let tables2 ← sd.primary_keys.foldlM (registerPK columns) tables1
  let st ← sd.foreign_keys.foldlM registerFK (columns, DiGraph.empty)
  .ok { db_id := sd.db_id, tables := tables2, columns := st.1,
        foreign_key_graph := st.2, orig := sd }

/-- The accumulated result of `load_tables`: the `schemas` dict and the
`eval_foreign_key_maps` dict, as insertion-ordered association lists. -/
structure LoadResult (κ : Type) where
  schemas : List (String × Schema)
  fkMaps : List (String × κ)
deriving DecidableEq

/-- The body of the inner loop of `load_tables`: build the schema, then
`assert db_id not in schemas` (a repeated id aborts the load), then insert
into both dicts. -/
def processSchemaDict (au : String → String) (bfkm : SchemaDict → κ)
    (acc : LoadResult κ) (sd : SchemaDict) : Except String (LoadResult κ) := do
  let s ← buildSchema au sd
  if acc.schemas.any (fun p => p.1 = sd.db_id) then
    .error "AssertionError: duplicate db_id"
  else
    .ok { schemas := acc.schemas ++ [(sd.db_id, s)],
          fkMaps := acc.fkMaps ++ [(sd.db_id, bfkm sd)] }

/-- Embedding of `load_tables(paths)`: each input file contributes a list of schema
dicts; files are processed in order, schema dicts within a file in order,
all accumulating into one pair of dicts. -/
def load_tables (au : String → String) (bfkm : SchemaDict → κ)
    (files : List (List SchemaDict)) : Except String (LoadResult κ) :=
  files.foldlM (fun acc file => file.foldlM (processSchemaDict au bfkm) acc)
    { schemas := [], fkMaps := [] }

/-- Python dict lookup `schemas[k]` on the modelled association list. -/
def lookupSchema (schemas : List (String × Schema)) (k : String) : Option Schema :=
  (schemas.find? (fun p => p.1 = k)).map Prod.snd

/-- The schema stored under `dbid` by a (possibly failed) `load_tables`
run. -/
def schemaOf (r : Except String (LoadResult κ)) (dbid : String) : Option Schema :=
  match r with
  | .ok res => lookupSchema res.schemas dbid
  | .error _ => none

/-- One raw example record, with the fields that `SpiderDataset.__init__`
and `Metrics` read.  The type `σ` of the parsed gold SQL structure
(`entry["sql"]`) is opaque to this code. -/
structure ExampleEntry (σ : Type) where
  question_toks : List String
  sql : σ
  db_id : String
  query_toks : List String
deriving DecidableEq

/-- Embedding of the `SpiderItem` attrs class. -/
structure SpiderItem (σ : Type) where
  text : List String
  code : σ
  schema : Schema
  orig : ExampleEntry σ
  orig_schema : SchemaDict
deriving DecidableEq

/-- One iteration of the example-joining loop of `SpiderDataset.__init__`:
`self.schemas[entry["db_id"]]` raises KeyError when the db id is missing;
otherwise the entry yields one `SpiderItem` holding the looked-up schema
and that schema's raw descriptor. -/
def joinOne (schemas : List (String × Schema)) (e : ExampleEntry σ) :
    Except String (SpiderItem σ) :=
  match lookupSchema schemas e.db_id with
  | none => .error "KeyError: db_id"
  | some s =>
    .ok { text := e.question_toks, code := e.sql, schema := s,
          orig := e, orig_schema := s.orig }

/-- The example loop of `SpiderDataset.__init__` over all entries of all
example files, in order. -/
def spiderDatasetInit (schemas : List (String × Schema))
    (entries : List (ExampleEntry σ)) : Except String (List (SpiderItem σ)) :=
  entries.mapM (joinOne schemas)

/-- The external `evaluation.Evaluator`, treated as an opaque oracle: its
per-call behaviour is an arbitrary pair of pure functions.  `V` is the
type of the verdict dict returned by `evaluate_one`. -/
structure Evaluator (V : Type) where
  evaluate_one : String → List String → String → V
  isValidSQL : String → String → Bool

/-- A recorded result: the evaluator's verdict, plus the optional
`orig_question` annotation. -/
structure RecordedResult (V : Type) where
  verdict : V
  orig_question : Option String
deriving DecidableEq

/-- Embedding of `if orig_question: ret_dict["orig_question"] = orig_question` —
Python truthiness: `None` and the empty string are both falsy. -/
def annotate (v : V) (oq : Option String) : RecordedResult V :=
  match oq with
  | some s => if s = "" then ⟨v, none⟩ else ⟨v, some s⟩
  | none => ⟨v, none⟩

/-- Embedding of `Metrics.add_one`: evaluate the prediction against the item's raw
gold tokens `item.orig["query_toks"]` and append the verdict. -/
def add_one (E : Evaluator V) (results : List (RecordedResult V))
    (item : SpiderItem σ) (inferred_code : String) (oq : Option String) :
    List (RecordedResult V) :=
  results ++
    [annotate (E.evaluate_one item.schema.db_id item.orig.query_toks inferred_code) oq]

/-- Embedding of `Metrics.add_beams`: underscore-normalize the gold tokens, evaluate
the first candidate that `isValidSQL` accepts, else fall back to
`inferred_codes[0]` (IndexError on an empty candidate list, before
anything is appended). -/
def add_beams (au : String → String) (E : Evaluator V)
    (results : List (RecordedResult V)) (item : SpiderItem σ)
    (inferred_codes : List String) (oq : Option String) :
    Except String (List (RecordedResult V)) :=
  let qw := item.orig.query_toks.map au
  match inferred_codes.find? (fun code => E.isValidSQL code item.schema.db_id) with
  | some code =>
    .ok (results ++ [annotate (E.evaluate_one item.schema.db_id qw code) oq])
  | none =>
    match inferred_codes with
    | [] => .error "IndexError: list index out of range"
    | c0 :: _ =>
      .ok (results ++ [annotate (E.evaluate_one item.schema.db_id qw c0) oq])

/-- The report returned by `Metrics.finalize`: the ordered per-item
verdicts and the evaluator's accumulated scores (an opaque value `S`). -/
structure Report (V S : Type) where
  per_item : List (RecordedResult V)
  total_scores : S
deriving DecidableEq

/-- Embedding of `Metrics.finalize`. -/
def finalize (scores : S) (results : List (RecordedResult V)) : Report V S :=
  { per_item := results, total_scores := scores }

/-- One call to the metrics recorder. -/
inductive MCall (σ : Type) where
  | single (item : SpiderItem σ) (code : String) (oq : Option String)
  | beam (item : SpiderItem σ) (codes : List String) (oq : Option String)

/-- Run one recorder call against the current `results` sequence. -/
def runCall (au : String → String) (E : Evaluator V)
    (results : List (RecordedResult V)) : MCall σ → Except String (List (RecordedResult V))
  | .single item code oq => .ok (add_one E results item code oq)
  | .beam item codes oq => add_beams au E results item codes oq

/-- Run a sequence of recorder calls starting from an empty `results`. -/
def runCalls (au : String → String) (E : Evaluator V) (calls : List (MCall σ)) :
    Except String (List (RecordedResult V)) :=
  calls.foldlM (runCall au E) []

/-- The single record that a call appends, when it succeeds. -/
def callVerdict (au : String → String) (E : Evaluator V) : MCall σ → Option (RecordedResult V)
  | .single item code oq =>
    some (annotate (E.evaluate_one item.schema.db_id item.orig.query_toks code) oq)
  | .beam item codes oq =>
    let qw := item.orig.query_toks.map au
    match codes.find? (fun code => E.isValidSQL code item.schema.db_id) with
    | some code => some (annotate (E.evaluate_one item.schema.db_id qw code) oq)
    | none =>
      match codes with
      | [] => none
      | c0 :: _ => some (annotate (E.evaluate_one item.schema.db_id qw c0) oq)

/-- The property asserted by claim C1 for one loaded schema's graph:
forward and reverse edges exist together, and an edge's column pair is
always the reversal of the reverse edge's column pair. -/
def FKSymmetricSpec (g : DiGraph) : Prop :=
  ∀ u v, (g.hasEdge u v = true ↔ g.hasEdge v u = true) ∧
    (∀ a b, g.edgeCols u v = some (a, b) → g.edgeCols v u = some (b, a))

/-- Claim C1 as stated: the symmetry property holds for every schema built
by `load_tables`, whatever the external collaborators do. -/
def ClaimC1 : Prop :=
  ∀ (κ : Type) (au : String → String) (bfkm : SchemaDict → κ)
    (files : List (List SchemaDict)) (dbid : String) (s : Schema),
    schemaOf (load_tables au bfkm files) dbid = some s →
    FKSymmetricSpec s.foreign_key_graph

/-- A schema descriptor with a self-referencing foreign key: column 1 and
column 2 both live in table 0, so both `add_edge` calls hit the single
self-loop edge `0 → 0` and the second overwrites the first. -/
def cexsd1 : SchemaDict :=
  { db_id := "cex", table_names := ["t"], table_names_original := ["t"],
    column_names := [(-1, "*"), (0, "a"), (0, "b")],
    column_names_original := [(-1, "*"), (0, "a"), (0, "b")],
    column_types := ["text", "text", "text"],
    primary_keys := [], foreign_keys := [(1, 2)] }

/-- The schema that `load_tables` builds from `cexsd1`. -/
def cexS1 : Schema :=
  { db_id := "cex",
    tables := [{ id := 0, name := ["t"], unsplit_name := "t", orig_name := "t",
                 columns := [1, 2], primary_keys := [] }],
    columns :=
      [{ id := 0, table := none, name := ["*"], unsplit_name := "*",
         orig_name := "*", type := "text", foreign_key_for := none },
       { id := 1, table := some 0, name := ["a"], unsplit_name := "a",
         orig_name := "a", type := "text", foreign_key_for := some 2 },
       { id := 2, table := some 0, name := ["b"], unsplit_name := "b",
         orig_name := "b", type := "text", foreign_key_for := none }],
    foreign_key_graph := ⟨[((0, 0), (2, 1))]⟩,
    orig := cexsd1 }

/-- A two-table schema with one cross-table foreign key. -/
def wsd1 : SchemaDict :=
  { db_id := "wc1", table_names := ["s", "t"], table_names_original := ["s", "t"],
    column_names := [(0, "a"), (1, "b")],
    column_names_original := [(0, "a"), (1, "b")],
    column_types := ["text", "text"],
    primary_keys := [], foreign_keys := [(0, 1)] }

/-- The schema that `load_tables` builds from `wsd1`. -/
def wS1 : Schema :=
  { db_id := "wc1",
    tables := [{ id := 0, name := ["s"], unsplit_name := "s", orig_name := "s",
                 columns := [0], primary_keys := [] },
               { id := 1, name := ["t"], unsplit_name := "t", orig_name := "t",
                 columns := [1], primary_keys := [] }],
    columns :=
      [{ id := 0, table := some 0, name := ["a"], unsplit_name := "a",
         orig_name := "a", type := "text", foreign_key_for := some 1 },
       { id := 1, table := some 1, name := ["b"], unsplit_name := "b",
         orig_name := "b", type := "text", foreign_key_for := none }],
    foreign_key_graph := ⟨[((0, 1), (0, 1)), ((1, 0), (1, 0))]⟩,
    orig := wsd1 }

/-- A two-table schema in which two distinct foreign-key pairs connect the
same ordered pair of tables `(0, 1)`. -/
def wsd10 : SchemaDict :=
  { db_id := "w10", table_names := ["t0", "t1"], table_names_original := ["t0", "t1"],
    column_names := [(0, "a"), (0, "b"), (1, "c")],
    column_names_original := [(0, "a"), (0, "b"), (1, "c")],
    column_types := ["text", "text", "text"],
    primary_keys := [], foreign_keys := [(0, 2), (1, 2)] }

/-- The schema that `load_tables` builds from `wsd10`: the `0 → 1` edge
keeps only the metadata of the second pair `(1, 2)`. -/
def wS10 : Schema :=
  { db_id := "w10",
    tables := [{ id := 0, name := ["t0"], unsplit_name := "t0", orig_name := "t0",
                 columns := [0, 1], primary_keys := [] },
               { id := 1, name := ["t1"], unsplit_name := "t1", orig_name := "t1",
                 columns := [2], primary_keys := [] }],
    columns :=
      [{ id := 0, table := some 0, name := ["a"], unsplit_name := "a",
         orig_name := "a", type := "text", foreign_key_for := some 2 },
       { id := 1, table := some 0, name := ["b"], unsplit_name := "b",
         orig_name := "b", type := "text", foreign_key_for := some 2 },
       { id := 2, table := some 1, name := ["c"], unsplit_name := "c",
         orig_name := "c", type := "text", foreign_key_for := none }],
    foreign_key_graph := ⟨[((0, 1), (1, 2)), ((1, 0), (2, 1))]⟩,
    orig := wsd10 }

/-- Claim C4 as stated: a database id repeated across input files aborts
the load, and pairwise-distinct database ids yield a combined mapping
covering every input id. -/
def ClaimC4 : Prop :=
  ∀ (κ : Type) (au : String → String) (bfkm : SchemaDict → κ)
    (files : List (List SchemaDict)),
    ((∃ (i : Nat) (j : Nat) (hi : i < files.length) (hj : j < files.length), i < j ∧
        ∃ sd1 ∈ files.get ⟨i, hi⟩, ∃ sd2 ∈ files.get ⟨j, hj⟩, sd1.db_id = sd2.db_id) →
      ∃ msg, load_tables au bfkm files = .error msg) ∧
    ((files.flatten.map (fun sd => sd.db_id)).Nodup →
      ∃ res, load_tables au bfkm files = .ok res ∧
        ∀ sd ∈ files.flatten, sd.db_id ∈ res.schemas.map Prod.fst)

/-- An empty but well-formed schema descriptor. -/
def sdA : SchemaDict :=
  { db_id := "a", table_names := [], table_names_original := [],
    column_names := [], column_names_original := [], column_types := [],
    primary_keys := [], foreign_keys := [] }

/-- Like `sdA` under a different id. -/
def sdC : SchemaDict :=
  { db_id := "c", table_names := [], table_names_original := [],
    column_names := [], column_names_original := [], column_types := [],
    primary_keys := [], foreign_keys := [] }

/-- A descriptor with a primary-key index into an empty column sequence:
`columns[0]` raises IndexError during the load. -/
def sdBbad : SchemaDict :=
  { db_id := "b", table_names := [], table_names_original := [],
    column_names := [], column_names_original := [], column_types := [],
    primary_keys := [0], foreign_keys := [] }

/-- The result of loading `sdA` and `sdC`. -/
def wRes4 : LoadResult Unit :=
  { schemas := [("a", { db_id := "a", tables := [], columns := [],
                        foreign_key_graph := ⟨[]⟩, orig := sdA }),
                ("c", { db_id := "c", tables := [], columns := [],
                        foreign_key_graph := ⟨[]⟩, orig := sdC })],
    fkMaps := [("a", ()), ("c", ())] }

/-- Validity of a Python `int` index for a sequence of length `n`. -/
def pyInRange (n : Nat) (i : Int) : Prop := -(n : Int) ≤ i ∧ i < (n : Int)

instance (n : Nat) (i : Int) : Decidable (pyInRange n i) := by
  unfold pyInRange; infer_instance

def loadList (au : String → String) (bfkm : SchemaDict → κ) (acc : LoadResult κ)
    (l : List SchemaDict) : Except String (LoadResult κ) :=
  List.foldlM (processSchemaDict au bfkm) acc l

/-- The length of the column sequence: the three parallel descriptor
arrays truncated to the shortest. -/
def ncols (sd : SchemaDict) : Nat :=
  min (min sd.column_names.length sd.column_names_original.length)
    sd.column_types.length

/-- The §8 example of the spec: one table `t`, a wildcard column and one
owned column that is the sole primary key. -/
def wsd5 : SchemaDict :=
  { db_id := "d1", table_names := ["t"], table_names_original := ["t"],
    column_names := [(-1, "*"), (0, "c")],
    column_names_original := [(-1, "*"), (0, "c")],
    column_types := ["text", "text"], primary_keys := [1], foreign_keys := [] }

def wT5 : Table :=
  { id := 0, name := ["t"], unsplit_name := "t", orig_name := "t",
    columns := [1], primary_keys := [1] }

/-- The schema that `load_tables` builds from `wsd5`. -/
def wS5 : Schema :=
  { db_id := "d1", tables := [wT5],
    columns :=
      [{ id := 0, table := none, name := ["*"], unsplit_name := "*",
         orig_name := "*", type := "text", foreign_key_for := none },
       { id := 1, table := some 0, name := ["c"], unsplit_name := "c",
         orig_name := "c", type := "text", foreign_key_for := none }],
    foreign_key_graph := ⟨[]⟩,
    orig := wsd5 }

/-- A trivial empty schema used by the recorder and join witnesses. -/
def wSch0 : Schema :=
  { db_id := "db", tables := [], columns := [], foreign_key_graph := ⟨[]⟩, orig := sdA }

def wEntM : ExampleEntry Unit :=
  { question_toks := ["q"], sql := (), db_id := "db", query_toks := ["select", "col"] }

def wItemM : SpiderItem Unit :=
  { text := ["q"], code := (), schema := wSch0, orig := wEntM, orig_schema := sdA }

/-- A concrete evaluator whose verdict records its three arguments and
which validates exactly the candidate `"good"`. -/
def wE2 : Evaluator (String × List String × String) :=
  { evaluate_one := fun dbid gold pred => (dbid, gold, pred),
    isValidSQL := fun code _ => code = "good" }

/-- A concrete evaluator that validates nothing. -/
def wE3 : Evaluator (String × List String × String) :=
  { evaluate_one := fun dbid gold pred => (dbid, gold, pred),
    isValidSQL := fun _ _ => false }

/-- A concrete evaluator that validates everything. -/
def wE6 : Evaluator (String × List String × String) :=
  { evaluate_one := fun dbid gold pred => (dbid, gold, pred),
    isValidSQL := fun _ _ => true }

def wCalls6 : List (MCall Unit) :=
  [MCall.single wItemM "p0" none, MCall.beam wItemM ["p1"] (some "why")]

/-- The recorded results of running `wCalls6`: the `add_one` call records
the raw gold tokens, the `add_beams` call the underscore-normalised ones. -/
def wRs6 : List (RecordedResult (String × List String × String)) :=
  [⟨("db", ["select", "col"], "p0"), none⟩,
   ⟨("db", ["_select", "_col"], "p1"), some "why"⟩]

/-- A one-entry schema mapping for the join witness. -/
def wSchemas7 : List (String × Schema) := [("db", wSch0)]

def wEnt7bad : ExampleEntry Unit :=
  { question_toks := ["q2"], sql := (), db_id := "nope", query_toks := ["sel"] }

def wItems7 : List (SpiderItem Unit) := [wItemM]

/-! ### Lemmas about the foreign-key graph -/

/-- The sequence of `add_edge` calls that the foreign-key loop issues,
computed from the columns' table ids (`tv`) and the raw foreign-key pairs:
each resolvable pair issues a forward write and a reverse write. -/
def fkWrites (tv : List (Option Nat)) : List (Int × Int) → List ((Nat × Nat) × (Int × Int))
  | [] => []
  | p :: rest =>
    (match pyGet tv p.1, pyGet tv p.2 with
     | some (some ta), some (some tb) => [((ta, tb), (p.1, p.2)), ((tb, ta), (p.2, p.1))]
     | _, _ => []) ++ fkWrites tv rest

def addEdgeW (g : DiGraph) (w : (Nat × Nat) × (Int × Int)) : DiGraph :=
  g.addEdge w.1.1 w.1.2 w.2

def applyWrites (g : DiGraph) (ws : List ((Nat × Nat) × (Int × Int))) : DiGraph :=
  ws.foldl addEdgeW g

theorem find?_updEdges (k k' : Nat × Nat) (c : Int × Int) :
    ∀ es : List ((Nat × Nat) × (Int × Int)),
      (updEdges es k c).find? (fun e => e.1 = k') =
        if k' = k then some (k, c) else es.find? (fun e => e.1 = k')
  | [] => by
    rcases Decidable.em (k' = k) with h | h
    · subst h; simp [updEdges]
    · have h2 : ¬ (k = k') := fun hc => h hc.symm
      simp [updEdges, h, h2]
  | e :: rest => by
    rcases Decidable.em (e.1 = k) with he | he
    · rw [show updEdges (e :: rest) k c = (k, c) :: rest from by simp [updEdges, he]]
      rcases Decidable.em (k' = k) with hk | hk
      · subst hk
        rw [List.find?_cons_of_pos _ (by simp), if_pos rfl]
      · have h2 : ¬ (k = k') := fun hc => hk hc.symm
        have h3 : ¬ (e.1 = k') := fun hc => h2 (he ▸ hc)
        rw [List.find?_cons_of_neg _ (by simpa using h2), if_neg hk,
          List.find?_cons_of_neg _ (by simpa using h3)]
    · rw [show updEdges (e :: rest) k c = e :: updEdges rest k c from by
        simp [updEdges, he]]
      rcases Decidable.em (e.1 = k') with hek | hek
      · have hk : ¬ (k' = k) := fun hc => he (hek.trans hc)
        rw [List.find?_cons_of_pos _ (by simpa using hek), if_neg hk,
          List.find?_cons_of_pos _ (by simpa using hek)]
      · rw [List.find?_cons_of_neg _ (by simpa using hek),
          find?_updEdges k k' c rest]
        rcases Decidable.em (k' = k) with hk | hk
        · rw [if_pos hk, if_pos hk]
        · rw [if_neg hk, if_neg hk, List.find?_cons_of_neg _ (by simpa using hek)]

theorem edgeCols_addEdge (g : DiGraph) (u v x y : Nat) (c : Int × Int) :
    (g.addEdge u v c).edgeCols x y =
      if (x, y) = (u, v) then some c else g.edgeCols x y := by
  unfold DiGraph.addEdge DiGraph.edgeCols
  rw [show (⟨updEdges g.edges (u, v) c⟩ : DiGraph).edges = updEdges g.edges (u, v) c from rfl,
    find?_updEdges]
  rcases Decidable.em ((x, y) = (u, v)) with h | h
  · rw [if_pos h, if_pos h]; rfl
  · rw [if_neg h, if_neg h]

theorem any_eq_isSome_find? (p : α → Bool) : ∀ l : List α, l.any p = (l.find? p).isSome
  | [] => rfl
  | a :: l => by
    rcases hp : p a with _ | _
    · rw [List.any_cons, List.find?_cons_of_neg _ (by simp [hp]), hp, Bool.false_or,
        any_eq_isSome_find? p l]
    · rw [List.any_cons, List.find?_cons_of_pos _ hp, hp, Bool.true_or]
      rfl

theorem hasEdge_eq_isSome (g : DiGraph) (u v : Nat) :
    g.hasEdge u v = (g.edgeCols u v).isSome := by
  unfold DiGraph.hasEdge DiGraph.edgeCols
  rw [any_eq_isSome_find?]
  generalize (g.edges.find? fun e => e.1 = (u, v)) = o
  cases o <;> rfl

theorem keys_updEdges (k : Nat × Nat) (c : Int × Int) :
    ∀ es : List ((Nat × Nat) × (Int × Int)),
      (updEdges es k c).map Prod.fst =
        if es.any (fun e => e.1 = k) then es.map Prod.fst else es.map Prod.fst ++ [k]
  | [] => by simp [updEdges]
  | e :: rest => by
    rcases Decidable.em (e.1 = k) with he | he
    · simp [updEdges, he]
    · simp only [updEdges, if_neg he, List.map_cons, List.any_cons]
      rw [keys_updEdges k c rest]
      rcases hrest : rest.any (fun e => e.1 = k) with _ | _
      · simp [he, hrest]
      · simp [he, hrest]

theorem nodup_keys_addEdge (g : DiGraph) (u v : Nat) (c : Int × Int)
    (h : (g.edges.map Prod.fst).Nodup) :
    ((g.addEdge u v c).edges.map Prod.fst).Nodup := by
  unfold DiGraph.addEdge
  rw [show (⟨updEdges g.edges (u, v) c⟩ : DiGraph).edges = updEdges g.edges (u, v) c from rfl,
    keys_updEdges]
  rcases hany : g.edges.any (fun e => e.1 = (u, v)) with _ | _
  · rw [if_neg (by exact Bool.false_ne_true)]
    rw [List.nodup_append]
    refine ⟨h, List.nodup_singleton _, ?_⟩
    intro a ha hb
    rw [List.mem_singleton] at hb
    subst hb
    rw [List.any_eq_false] at hany
    rcases List.mem_map.mp ha with ⟨e, he, hfst⟩
    have hne : ¬ (e.1 = (u, v)) := by simpa using hany e he
    exact hne hfst
  · rw [if_pos (by exact rfl)]
    exact h

theorem nodup_keys_applyWrites (ws : List ((Nat × Nat) × (Int × Int))) :
    ∀ g : DiGraph, (g.edges.map Prod.fst).Nodup →
      ((applyWrites g ws).edges.map Prod.fst).Nodup := by
  induction ws with
  | nil => intro g h; simpa [applyWrites] using h
  | cons w rest ih =>
    intro g h
    have : applyWrites g (w :: rest) = applyWrites (addEdgeW g w) rest := by
      simp [applyWrites, List.foldl_cons]
    rw [this]
    exact ih _ (nodup_keys_addEdge g w.1.1 w.1.2 w.2 h)

theorem applyWrites_append (g : DiGraph) (ws1 ws2 : List ((Nat × Nat) × (Int × Int))) :
    applyWrites g (ws1 ++ ws2) = applyWrites (applyWrites g ws1) ws2 := by
  simp [applyWrites, List.foldl_append]

/-- The attribute of edge `u → v` after a sequence of writes is the value
of the last write keyed `(u, v)`, falling back to the starting graph. -/
theorem edgeCols_applyWrites (u v : Nat) (ws : List ((Nat × Nat) × (Int × Int))) :
    ∀ g : DiGraph,
      (applyWrites g ws).edgeCols u v =
        match (ws.filter (fun w => w.1 = (u, v))).getLast? with
        | some w => some w.2
        | none => g.edgeCols u v := by
  induction ws using List.reverseRecOn with
  | nil => intro g; simp [applyWrites]
  | append_singleton ws w ih =>
    intro g
    rw [applyWrites_append]
    have happ : applyWrites (applyWrites g ws) [w] = (applyWrites g ws).addEdge w.1.1 w.1.2 w.2 := by
      simp [applyWrites, addEdgeW]
    rw [happ, edgeCols_addEdge, List.filter_append]
    rcases Decidable.em (w.1 = (u, v)) with hw | hw
    · have hcond : (u, v) = (w.1.1, w.1.2) := hw.symm
      rw [if_pos hcond]
      have hfw : List.filter (fun x => decide (x.1 = (u, v))) [w] = [w] := by simp [hw]
      rw [hfw, List.getLast?_concat]
    · have h1 : ¬ ((u, v) = (w.1.1, w.1.2)) := fun hc => hw (by rw [hc])
      rw [if_neg h1]
      have h2 : List.filter (fun x => decide (x.1 = (u, v))) [w] = [] := by
        simp [List.filter, hw]
      rw [h2, List.append_nil]
      exact ih g

/-! ### Lemmas about Python indexing -/

theorem pyIdx_lt {n : Nat} {i : Int} {m : Nat} (h : pyIdx n i = some m) : m < n := by
  unfold pyIdx at h
  split at h
  · split at h
    · cases h; omega
    · cases h
  · split at h
    · cases h
      rename_i h0 h1
      omega
    · cases h

theorem pyIdx_isSome_iff (n : Nat) (i : Int) :
    (pyIdx n i).isSome ↔ (-(n : Int) ≤ i ∧ i < (n : Int)) := by
  unfold pyIdx
  rcases Decidable.em (0 ≤ i) with h0 | h0
  · rw [if_pos h0]
    rcases Decidable.em (i < (n : Int)) with h1 | h1
    · rw [if_pos h1]; simp; omega
    · rw [if_neg h1]; simp; omega
  · rw [if_neg h0]
    rcases Decidable.em (-i ≤ (n : Int)) with h1 | h1
    · rw [if_pos h1]; simp; omega
    · rw [if_neg h1]; simp; omega

theorem pyGet_map (f : α → β) (xs : List α) (i : Int) :
    pyGet (xs.map f) i = (pyGet xs i).map f := by
  unfold pyGet
  rw [List.length_map]
  rcases h : pyIdx xs.length i with _ | m
  · rfl
  · simp [List.getElem?_map]

theorem pyGet_isSome (xs : List α) (i : Int) :
    (pyGet xs i).isSome = (pyIdx xs.length i).isSome := by
  unfold pyGet
  rcases h : pyIdx xs.length i with _ | m
  · rfl
  · have hm := pyIdx_lt h
    simp [List.getElem?_eq_getElem hm]

/-! ### Symmetry structure of the foreign-key writes -/

theorem fkWrites_filter_swap (tv : List (Option Nat)) (u v : Nat) (huv : u ≠ v) :
    ∀ fks : List (Int × Int),
      (fkWrites tv fks).filter (fun w => w.1 = (v, u)) =
        ((fkWrites tv fks).filter (fun w => w.1 = (u, v))).map
          (fun w => ((v, u), Prod.swap w.2))
  | [] => rfl
  | p :: rest => by
    rw [show fkWrites tv (p :: rest) =
        (match pyGet tv p.1, pyGet tv p.2 with
         | some (some ta), some (some tb) => [((ta, tb), (p.1, p.2)), ((tb, ta), (p.2, p.1))]
         | _, _ => []) ++ fkWrites tv rest from rfl]
    rw [List.filter_append, List.filter_append, List.map_append,
      fkWrites_filter_swap tv u v huv rest]
    congr 1
    rcases h1 : pyGet tv p.1 with _ | ota
    · rfl
    rcases ota with _ | ta
    · rfl
    rcases h2 : pyGet tv p.2 with _ | otb
    · rfl
    rcases otb with _ | tb
    · rfl
    rcases Decidable.em ((ta, tb) = (u, v)) with hab | hab
    · rw [Prod.mk.injEq] at hab
      obtain ⟨hta, htb⟩ := hab
      subst hta; subst htb
      have h3 : ¬ (((ta, tb) : Nat × Nat) = (tb, ta)) := by
        intro hc; rw [Prod.mk.injEq] at hc; exact huv hc.1
      have h4 : ¬ (((tb, ta) : Nat × Nat) = (ta, tb)) := by
        intro hc; rw [Prod.mk.injEq] at hc; exact huv hc.1.symm
      simp [List.filter_cons, h3, h4, Prod.swap]
    · rcases Decidable.em ((tb, ta) = (u, v)) with hba | hba
      · rw [Prod.mk.injEq] at hba
        obtain ⟨htb, hta⟩ := hba
        subst hta; subst htb
        have h3 : ¬ (((tb, ta) : Nat × Nat) = (ta, tb)) := by
          intro hc; rw [Prod.mk.injEq] at hc; exact huv hc.1
        have h4 : ¬ (((ta, tb) : Nat × Nat) = (tb, ta)) := by
          intro hc; rw [Prod.mk.injEq] at hc; exact huv hc.1.symm
        simp [List.filter_cons, h3, h4, Prod.swap]
      · have h5 : ¬ (((ta, tb) : Nat × Nat) = (v, u)) := by
          intro hc; rw [Prod.mk.injEq] at hc
          exact hba (by rw [Prod.mk.injEq]; exact ⟨hc.2, hc.1⟩)
        have h6 : ¬ (((tb, ta) : Nat × Nat) = (v, u)) := by
          intro hc; rw [Prod.mk.injEq] at hc
          exact hab (by rw [Prod.mk.injEq]; exact ⟨hc.2, hc.1⟩)
        simp [List.filter_cons, hab, hba, h5, h6]

theorem getLast?_map (f : α → β) : ∀ l : List α, (l.map f).getLast? = l.getLast?.map f := by
  intro l
  induction l using List.reverseRecOn with
  | nil => rfl
  | append_singleton l a ih => simp [List.getLast?_concat]

/-- For `u ≠ v`, after the foreign-key writes the attribute of edge
`v → u` is the column-pair swap of the attribute of edge `u → v`. -/
theorem edgeCols_fkWrites_swap (tv : List (Option Nat)) (fks : List (Int × Int))
    (u v : Nat) (huv : u ≠ v) :
    (applyWrites DiGraph.empty (fkWrites tv fks)).edgeCols v u =
      ((applyWrites DiGraph.empty (fkWrites tv fks)).edgeCols u v).map Prod.swap := by
  rw [edgeCols_applyWrites, edgeCols_applyWrites, fkWrites_filter_swap tv u v huv fks,
    getLast?_map]
  rcases hl : ((fkWrites tv fks).filter (fun w => w.1 = (u, v))).getLast? with _ | w
  · rw [hl]; rfl
  · rw [hl]; rfl

/-! ### The foreign-key fold -/

theorem registerFK_ok {st : List Column × DiGraph} {fk : Int × Int}
    {st2 : List Column × DiGraph} (h : registerFK st fk = .ok st2) :
    ∃ sc dc ts td,
      pyGet st.1 fk.1 = some sc ∧ pyGet st.1 fk.2 = some dc ∧
      sc.table = some ts ∧ dc.table = some td ∧
      st2.1 = st.1.map (fun c =>
        if c.id = sc.id then { c with foreign_key_for := some dc.id } else c) ∧
      st2.2 = (st.2.addEdge ts td (fk.1, fk.2)).addEdge td ts (fk.2, fk.1) := by
  unfold registerFK at h
  rcases h1 : pyGet st.1 fk.1 with _ | sc <;> rw [h1] at h
  · cases h
  rcases h2 : pyGet st.1 fk.2 with _ | dc <;> rw [h2] at h
  · cases h
  have h' : (match sc.table, dc.table with
    | some ts, some td =>
        Except.ok (st.1.map (fun c =>
            if c.id = sc.id then { c with foreign_key_for := some dc.id } else c),
          (st.2.addEdge ts td (fk.1, fk.2)).addEdge td ts (fk.2, fk.1))
    | _, _ =>
        (Except.error "AttributeError: NoneType has no attribute id" :
          Except String (List Column × DiGraph))) = Except.ok st2 := h
  clear h
  rcases h3 : sc.table with _ | ts <;> rw [h3] at h'
  · rcases h4 : dc.table with _ | td <;> rw [h4] at h' <;> cases h'
  rcases h4 : dc.table with _ | td <;> rw [h4] at h'
  · cases h'
  cases h'
  exact ⟨sc, dc, ts, td, rfl, rfl, h3, h4, rfl, rfl⟩

theorem fkUpdate_id_table (cols : List Column) (sid did : Nat) :
    (cols.map (fun c =>
      if c.id = sid then { c with foreign_key_for := some did } else c)).map
        (fun c => (c.id, c.table)) = cols.map (fun c => (c.id, c.table)) := by
  rw [List.map_map]
  apply List.map_congr_left
  intro c _
  rcases Decidable.em (c.id = sid) with h | h <;> simp [h]

/-- Running the foreign-key loop from `(cols, g)` preserves each column's
id and table, and builds exactly the graph obtained by replaying the
`fkWrites` sequence on `g`; moreover every index it touched was a valid
Python index into `cols`. -/
theorem fk_fold_result :
    ∀ (fks : List (Int × Int)) (cols : List Column) (g : DiGraph)
      (st2 : List Column × DiGraph),
      List.foldlM registerFK (cols, g) fks = .ok st2 →
        st2.1.map (fun c => (c.id, c.table)) = cols.map (fun c => (c.id, c.table)) ∧
        st2.2 = applyWrites g (fkWrites (cols.map (fun c => c.table)) fks) ∧
        (∀ p ∈ fks, (pyIdx cols.length p.1).isSome ∧ (pyIdx cols.length p.2).isSome)
  | [], cols, g, st2 => by
    intro h
    rw [List.foldlM_nil] at h
    cases h
    exact ⟨rfl, rfl, by simp⟩
  | p :: rest, cols, g, st2 => by
    intro h
    rw [List.foldlM_cons] at h
    rcases hstep : registerFK (cols, g) p with e | st1
    · rw [hstep] at h
      have h' : (Except.error e : Except String (List Column × DiGraph)) = .ok st2 := h
      cases h'
    rw [hstep] at h
    have h' : List.foldlM registerFK st1 rest = .ok st2 := h
    obtain ⟨sc, dc, ts, td, hsc, hdc, hts, htd, hcols1, hg1⟩ := registerFK_ok hstep
    obtain ⟨ih1, ih2, ih3⟩ := fk_fold_result rest st1.1 st1.2 st2 (by
      rw [show ((st1.1, st1.2) : List Column × DiGraph) = st1 from rfl]
      exact h')
    have hpres : st1.1.map (fun c => (c.id, c.table)) = cols.map (fun c => (c.id, c.table)) := by
      rw [hcols1]; exact fkUpdate_id_table cols sc.id dc.id
    have htv : st1.1.map (fun c => c.table) = cols.map (fun c => c.table) := by
      have := congrArg (List.map Prod.snd) hpres
      simpa [List.map_map, Function.comp] using this
    have hlen : st1.1.length = cols.length := by
      have := congrArg List.length hpres
      simpa using this
    have hwrites : fkWrites (cols.map (fun c => c.table)) (p :: rest) =
        [((ts, td), (p.1, p.2)), ((td, ts), (p.2, p.1))] ++
          fkWrites (cols.map (fun c => c.table)) rest := by
      rw [show fkWrites (cols.map (fun c => c.table)) (p :: rest) =
        (match pyGet (cols.map (fun c => c.table)) p.1,
               pyGet (cols.map (fun c => c.table)) p.2 with
         | some (some ta), some (some tb) =>
            [((ta, tb), (p.1, p.2)), ((tb, ta), (p.2, p.1))]
         | _, _ => []) ++ fkWrites (cols.map (fun c => c.table)) rest from rfl]
      rw [pyGet_map, pyGet_map, hsc, hdc]
      rw [show (Option.map (fun c => c.table) (some sc)) = some sc.table from rfl,
        show (Option.map (fun c => c.table) (some dc)) = some dc.table from rfl, hts, htd]
    refine ⟨by rw [ih1, hpres], ?_, ?_⟩
    · rw [ih2, htv, hwrites, applyWrites_append,
        show applyWrites g [((ts, td), (p.1, p.2)), ((td, ts), (p.2, p.1))] = st1.2 from by
          rw [hg1]; rfl]
    · intro q hq
      rcases List.mem_cons.mp hq with hq | hq
      · subst hq
      -- the head pair succeeded, so both of its indices are valid
        constructor
        · rw [← pyGet_isSome, hsc]; rfl
        · rw [← pyGet_isSome, hdc]; rfl
      · have hq2 := ih3 q hq
        rwa [hlen] at hq2


/-! ### Destructuring a successful `buildSchema` and `load_tables` run -/

theorem buildSchema_ok {au : String → String} {sd : SchemaDict} {s : Schema}
    (h : buildSchema au sd = .ok s) :
    ∃ (columns : List Column) (tables2 : List Table) (st : List Column × DiGraph),
      buildColumns au (buildTables au sd).length sd = .ok columns ∧
      List.foldlM (registerPK columns) (linkColumns (buildTables au sd) columns)
        sd.primary_keys = .ok tables2 ∧
      List.foldlM registerFK (columns, DiGraph.empty) sd.foreign_keys = .ok st ∧
      s = { db_id := sd.db_id, tables := tables2, columns := st.1,
            foreign_key_graph := st.2, orig := sd } := by
  have hdef : buildSchema au sd =
      (buildColumns au (buildTables au sd).length sd).bind (fun columns =>
        (List.foldlM (registerPK columns) (linkColumns (buildTables au sd) columns)
          sd.primary_keys).bind (fun tables2 =>
          (List.foldlM registerFK (columns, DiGraph.empty) sd.foreign_keys).bind (fun st =>
            Except.ok { db_id := sd.db_id, tables := tables2, columns := st.1,
                        foreign_key_graph := st.2, orig := sd }))) := rfl
  rw [hdef] at h
  rcases h1 : buildColumns au (buildTables au sd).length sd with e | columns <;> rw [h1] at h
  · cases h
  have h2 : (List.foldlM (registerPK columns) (linkColumns (buildTables au sd) columns)
      sd.primary_keys).bind (fun tables2 =>
        (List.foldlM registerFK (columns, DiGraph.empty) sd.foreign_keys).bind (fun st =>
          Except.ok { db_id := sd.db_id, tables := tables2, columns := st.1,
                      foreign_key_graph := st.2, orig := sd })) = Except.ok s := h
  clear h
  rcases hpk : List.foldlM (registerPK columns) (linkColumns (buildTables au sd) columns)
      sd.primary_keys with e | tables2 <;> rw [hpk] at h2
  · cases h2
  have h3 : (List.foldlM registerFK (columns, DiGraph.empty) sd.foreign_keys).bind (fun st =>
      Except.ok { db_id := sd.db_id, tables := tables2, columns := st.1,
                  foreign_key_graph := st.2, orig := sd }) = Except.ok s := h2
  clear h2
  rcases hfk : List.foldlM registerFK (columns, DiGraph.empty) sd.foreign_keys
      with e | st <;> rw [hfk] at h3
  · cases h3
  have h4 : Except.ok { db_id := sd.db_id, tables := tables2, columns := st.1,
                        foreign_key_graph := st.2, orig := sd } = Except.ok s := h3
  cases h4
  exact ⟨columns, tables2, st, rfl, hpk, hfk, rfl⟩

theorem load_tables_eq_loadList (au : String → String) (bfkm : SchemaDict → κ) :
    ∀ (files : List (List SchemaDict)) (acc : LoadResult κ),
      List.foldlM (fun acc file => List.foldlM (processSchemaDict au bfkm) acc file)
        acc files = loadList au bfkm acc files.flatten
  | [], acc => rfl
  | f :: fs, acc => by
    unfold loadList
    rw [List.foldlM_cons, List.flatten_cons, List.foldlM_append]
    exact congrArg (fun k => List.foldlM (processSchemaDict au bfkm) acc f >>= k)
      (funext fun acc2 => load_tables_eq_loadList au bfkm fs acc2)

theorem load_tables_flatten (au : String → String) (bfkm : SchemaDict → κ)
    (files : List (List SchemaDict)) :
    load_tables au bfkm files = loadList au bfkm ⟨[], []⟩ files.flatten :=
  load_tables_eq_loadList au bfkm files ⟨[], []⟩

theorem processSchemaDict_ok {au : String → String} {bfkm : SchemaDict → κ}
    {acc acc2 : LoadResult κ} {sd : SchemaDict}
    (h : processSchemaDict au bfkm acc sd = .ok acc2) :
    ∃ s, buildSchema au sd = .ok s ∧
      (acc.schemas.any (fun p => p.1 = sd.db_id)) = false ∧
      acc2 = { schemas := acc.schemas ++ [(sd.db_id, s)],
               fkMaps := acc.fkMaps ++ [(sd.db_id, bfkm sd)] } := by
  unfold processSchemaDict at h
  rcases h1 : buildSchema au sd with e | s <;> rw [h1] at h
  · cases h
  have h2 : (if acc.schemas.any (fun p => p.1 = sd.db_id) then
      (Except.error "AssertionError: duplicate db_id" : Except String (LoadResult κ))
    else
      Except.ok { schemas := acc.schemas ++ [(sd.db_id, s)],
                  fkMaps := acc.fkMaps ++ [(sd.db_id, bfkm sd)] }) = Except.ok acc2 := h
  clear h
  rcases hany : acc.schemas.any (fun p => p.1 = sd.db_id) with _ | _
  · rw [if_neg (by rw [hany]; exact Bool.false_ne_true)] at h2
    cases h2
    exact ⟨s, rfl, rfl, rfl⟩
  · rw [if_pos (by rw [hany])] at h2
    cases h2

/-- The master induction over a successful run of the schema-dict loop. -/
theorem loadList_ok {au : String → String} {bfkm : SchemaDict → κ} :
    ∀ (l : List SchemaDict) (acc res : LoadResult κ),
      loadList au bfkm acc l = .ok res →
      (res.schemas.map Prod.fst = acc.schemas.map Prod.fst ++ l.map (fun sd => sd.db_id)) ∧
      (res.fkMaps.map Prod.fst = acc.fkMaps.map Prod.fst ++ l.map (fun sd => sd.db_id)) ∧
      (∀ p ∈ res.schemas, p ∈ acc.schemas ∨
        ∃ sd ∈ l, sd.db_id = p.1 ∧ buildSchema au sd = .ok p.2) ∧
      (∀ sd ∈ l, ∃ s, buildSchema au sd = .ok s) ∧
      ((acc.schemas.map Prod.fst).Nodup → (res.schemas.map Prod.fst).Nodup)
  | [], acc, res => by
    intro h
    rw [loadList, List.foldlM_nil] at h
    cases h
    exact ⟨by simp, by simp, fun p hp => Or.inl hp, by simp, fun h => h⟩
  | sd :: rest, acc, res => by
    intro h
    rw [loadList, List.foldlM_cons] at h
    rcases hstep : processSchemaDict au bfkm acc sd with e | acc2
    · rw [hstep] at h
      have h' : (Except.error e : Except String (LoadResult κ)) = .ok res := h
      cases h'
    rw [hstep] at h
    have h' : loadList au bfkm acc2 rest = .ok res := h
    obtain ⟨s, hbs, hany, hacc2⟩ := processSchemaDict_ok hstep
    obtain ⟨ih1, ih2, ih3, ih4, ih5⟩ := loadList_ok rest acc2 res h'
    have hkeys : acc2.schemas.map Prod.fst = acc.schemas.map Prod.fst ++ [sd.db_id] := by
      rw [hacc2]; simp
    have hfkeys : acc2.fkMaps.map Prod.fst = acc.fkMaps.map Prod.fst ++ [sd.db_id] := by
      rw [hacc2]; simp
    refine ⟨?_, ?_, ?_, ?_, ?_⟩
    · rw [ih1, hkeys]; simp
    · rw [ih2, hfkeys]; simp
    · intro p hp
      rcases ih3 p hp with hin | ⟨sd2, hsd2, hid, hb⟩
      · rw [hacc2] at hin
        rcases List.mem_append.mp hin with hin | hin
        · exact Or.inl hin
        · rw [List.mem_singleton] at hin
          subst hin
          exact Or.inr ⟨sd, List.mem_cons_self sd rest, rfl, hbs⟩
      · exact Or.inr ⟨sd2, List.mem_cons_of_mem sd hsd2, hid, hb⟩
    · intro sd2 hsd2
      rcases List.mem_cons.mp hsd2 with hsd2 | hsd2
      · subst hsd2; exact ⟨s, hbs⟩
      · exact ih4 sd2 hsd2
    · intro hnd
      apply ih5
      rw [hkeys, List.nodup_append]
      refine ⟨hnd, List.nodup_singleton _, ?_⟩
      intro a ha hb
      rw [List.mem_singleton] at hb
      subst hb
      rw [List.any_eq_false] at hany
      rcases List.mem_map.mp ha with ⟨q, hq, hfst⟩
      exact absurd hfst (by simpa using hany q hq)

theorem lookupSchema_isSome_iff (schemas : List (String × Schema)) (k : String) :
    (lookupSchema schemas k).isSome ↔ k ∈ schemas.map Prod.fst := by
  unfold lookupSchema
  rcases hf : schemas.find? (fun p => p.1 = k) with _ | p
  · rw [hf]
    rw [List.find?_eq_none] at hf
    constructor
    · intro hcontra
      simp at hcontra
    · intro hmem
      rcases List.mem_map.mp hmem with ⟨q, hq, hfst⟩
      have hq2 : ¬ (q.1 = k) := by simpa using hf q hq
      exact absurd hfst hq2
  · rw [hf]
    have hmem := List.mem_of_find?_eq_some hf
    have hp : p.1 = k := by simpa using List.find?_some hf
    constructor
    · intro _
      exact List.mem_map.mpr ⟨p, hmem, hp⟩
    · intro _
      rfl

theorem lookupSchema_some_mem {schemas : List (String × Schema)} {k : String} {s : Schema}
    (h : lookupSchema schemas k = some s) : (k, s) ∈ schemas := by
  unfold lookupSchema at h
  rcases hf : schemas.find? (fun p => p.1 = k) with _ | p <;> rw [hf] at h
  · cases h
  · have hmem := List.mem_of_find?_eq_some hf
    have hp : p.1 = k := by simpa using List.find?_some hf
    have hs : p.2 = s := by cases h; rfl
    have hpk : p = (k, s) := by
      rcases p with ⟨a, b⟩
      rw [Prod.mk.injEq]
      exact ⟨hp, hs⟩
    rwa [hpk] at hmem

/-- Every schema looked up from a successful `load_tables` run was produced
by `buildSchema` on some processed schema dict. -/
theorem schemaOf_buildSchema {au : String → String} {bfkm : SchemaDict → κ}
    {files : List (List SchemaDict)} {dbid : String} {s : Schema}
    (h : schemaOf (load_tables au bfkm files) dbid = some s) :
    ∃ sd ∈ files.flatten, sd.db_id = dbid ∧ buildSchema au sd = .ok s := by
  unfold schemaOf at h
  rcases hload : load_tables au bfkm files with e | res <;> rw [hload] at h
  · cases h
  rw [load_tables_flatten] at hload
  obtain ⟨_, _, hsrc, _, _⟩ := loadList_ok files.flatten ⟨[], []⟩ res hload
  have hmem := lookupSchema_some_mem h
  rcases hsrc (dbid, s) hmem with hin | ⟨sd, hsd, hid, hb⟩
  · cases hin
  · exact ⟨sd, hsd, hid, hb⟩


/-! ### Column construction, column linking, primary keys -/

theorem colTriples_length (sd : SchemaDict) : (colTriples sd).length = ncols sd := by
  unfold colTriples ncols
  simp

theorem colTriples_fst (sd : SchemaDict) (j : Nat) (hj : j < (colTriples sd).length) :
    ∃ hn : j < sd.column_names.length,
      ((colTriples sd).get ⟨j, hj⟩).1 = sd.column_names.get ⟨j, hn⟩ := by
  unfold colTriples at hj ⊢
  simp only [List.length_map, List.length_zip, lt_min_iff] at hj
  refine ⟨hj.1.1, ?_⟩
  simp [List.getElem_zip]

theorem buildColumn_ok {au : String → String} {ntables i : Nat}
    {t : (Int × String) × (Int × String) × String} {c : Column}
    (h : buildColumn au ntables i t = .ok c) :
    c.id = i ∧ (c.table = none ↔ t.1.1 < 0) ∧
      (∀ tt, c.table = some tt → t.1.1 = (tt : Int) ∧ tt < ntables) := by
  have h2 : (if 0 ≤ t.1.1 then
      if t.1.1 < (ntables : Int) then
        Except.ok { id := i, table := some t.1.1.toNat, name := pySplit t.1.2,
                    unsplit_name := t.1.2, orig_name := au t.2.1.2, type := t.2.2 }
      else (Except.error "IndexError: tuple index out of range" : Except String Column)
    else
      Except.ok { id := i, table := none, name := pySplit t.1.2,
                  unsplit_name := t.1.2, orig_name := au t.2.1.2, type := t.2.2 }) =
      Except.ok c := h
  clear h
  rcases Decidable.em (0 ≤ t.1.1) with h0 | h0
  · rw [if_pos h0] at h2
    rcases Decidable.em (t.1.1 < (ntables : Int)) with h1 | h1
    · rw [if_pos h1] at h2
      cases h2
      refine ⟨rfl, ?_, ?_⟩
      · constructor
        · intro hc; cases hc
        · intro hc; omega
      · intro tt htt
        have htt2 : tt = t.1.1.toNat := by
          have := Option.some.inj htt
          exact this.symm
        subst htt2
        constructor
        · omega
        · omega
    · rw [if_neg h1] at h2
      cases h2
  · rw [if_neg h0] at h2
    cases h2
    refine ⟨rfl, ?_, ?_⟩
    · constructor
      · intro _; omega
      · intro _; rfl
    · intro tt htt; cases htt

theorem buildColumnsAux_ok {au : String → String} {ntables : Nat} :
    ∀ (i : Nat) (l : List ((Int × String) × (Int × String) × String)) (cs : List Column),
      buildColumnsAux au ntables i l = .ok cs →
      cs.length = l.length ∧
      (∀ j (hj : j < l.length), ∃ hc : j < cs.length,
        (cs.get ⟨j, hc⟩).id = i + j ∧
        ((cs.get ⟨j, hc⟩).table = none ↔ (l.get ⟨j, hj⟩).1.1 < 0) ∧
        (∀ tt, (cs.get ⟨j, hc⟩).table = some tt →
          (l.get ⟨j, hj⟩).1.1 = (tt : Int) ∧ tt < ntables))
  | i, [], cs => by
    intro h
    have h2 : (Except.ok [] : Except String (List Column)) = .ok cs := h
    cases h2
    exact ⟨rfl, fun j hj => absurd hj (by simp)⟩
  | i, t :: rest, cs => by
    intro h
    have h2 : (buildColumn au ntables i t).bind (fun c =>
        (buildColumnsAux au ntables (i + 1) rest).bind (fun cs2 =>
          Except.ok (c :: cs2))) = Except.ok cs := h
    clear h
    rcases hc : buildColumn au ntables i t with e | c <;> rw [hc] at h2
    · cases h2
    have h3 : (buildColumnsAux au ntables (i + 1) rest).bind (fun cs2 =>
        Except.ok (c :: cs2)) = Except.ok cs := h2
    clear h2
    rcases hrest : buildColumnsAux au ntables (i + 1) rest with e | cs2 <;> rw [hrest] at h3
    · cases h3
    have h4 : Except.ok (c :: cs2) = Except.ok cs := h3
    cases h4
    obtain ⟨ihlen, ih⟩ := buildColumnsAux_ok (i + 1) rest cs2 hrest
    obtain ⟨hid, htab, hsome⟩ := buildColumn_ok hc
    refine ⟨by simp [ihlen], ?_⟩
    intro j hj
    rcases j with _ | j
    · exact ⟨by simp, by simpa using hid, htab, hsome⟩
    · have hj2 : j < rest.length := by simpa using hj
      obtain ⟨hcj, ih1, ih2, ih3⟩ := ih j hj2
      refine ⟨by simpa using Nat.succ_lt_succ hcj, ?_, ?_, ?_⟩
      · rw [show ((c :: cs2).get ⟨j + 1, by simpa using Nat.succ_lt_succ hcj⟩) =
          cs2.get ⟨j, hcj⟩ from rfl]
        rw [ih1]
        omega
      · exact ih2
      · exact ih3


/-- Closed form of the column-linking loop: each table's column list gains
exactly the ids of the columns that reference it, in descriptor order. -/
theorem linkColumns_eq :
    ∀ (cols : List Column) (ts : List Table),
      linkColumns ts cols = ts.map (fun tb =>
        { tb with columns := tb.columns ++
            ((cols.filter (fun c => c.table = some tb.id)).map (fun c => c.id)) })
  | [], ts => by
    show ts = List.map _ ts
    induction ts with
    | nil => rfl
    | cons tb rest ih =>
      rw [List.map_cons, ← ih]
      have htb : tb = { tb with columns := tb.columns ++
          ((([] : List Column).filter (fun c => c.table = some tb.id)).map (fun c => c.id)) } := by
        simp
      exact congrArg (fun x => x :: rest) htb
  | c :: cols, ts => by
    rw [show linkColumns ts (c :: cols) = linkColumns (linkStep c ts) cols from rfl,
      linkColumns_eq cols (linkStep c ts)]
    unfold linkStep
    rw [List.map_map]
    apply List.map_congr_left
    intro tb _
    rcases Decidable.em (c.table = some tb.id) with h | h
    · simp [h, List.filter_cons, List.append_assoc]
    · simp [h, List.filter_cons]

theorem registerPK_ok {cols : List Column} {ts ts2 : List Table} {pk : Int}
    (h : registerPK cols ts pk = .ok ts2) :
    ∃ c t, pyGet cols pk = some c ∧ c.table = some t ∧
      ts2 = ts.map (fun tb =>
        if tb.id = t then { tb with primary_keys := tb.primary_keys ++ [c.id] } else tb) := by
  unfold registerPK at h
  rcases hc : pyGet cols pk with _ | c <;> rw [hc] at h
  · cases h
  have h2 : (match c.table with
    | none => (Except.error "AttributeError: NoneType has no attribute primary_keys" :
        Except String (List Table))
    | some t => Except.ok (ts.map (fun tb =>
        if tb.id = t then { tb with primary_keys := tb.primary_keys ++ [c.id] } else tb))) =
      Except.ok ts2 := h
  clear h
  rcases ht : c.table with _ | t <;> rw [ht] at h2
  · cases h2
  cases h2
  exact ⟨c, t, rfl, ht, rfl⟩

/-- The primary-key loop preserves every table's id and column list, and a
successful run means every primary-key index resolved to an owned column. -/
theorem pk_fold_tables {cols : List Column} :
    ∀ (pks : List Int) (ts ts2 : List Table),
      List.foldlM (registerPK cols) ts pks = .ok ts2 →
        ts2.map (fun tb => (tb.id, tb.columns)) = ts.map (fun tb => (tb.id, tb.columns)) ∧
        (∀ pk ∈ pks, ∃ c t, pyGet cols pk = some c ∧ c.table = some t)
  | [], ts, ts2 => by
    intro h
    rw [List.foldlM_nil] at h
    cases h
    exact ⟨rfl, by simp⟩
  | pk :: rest, ts, ts2 => by
    intro h
    rw [List.foldlM_cons] at h
    rcases hstep : registerPK cols ts pk with e | ts1 <;> rw [hstep] at h
    · have h2 : (Except.error e : Except String (List Table)) = .ok ts2 := h
      cases h2
    have h2 : List.foldlM (registerPK cols) ts1 rest = .ok ts2 := h
    obtain ⟨c, t, hc, ht, hts1⟩ := registerPK_ok hstep
    obtain ⟨ih1, ih2⟩ := pk_fold_tables rest ts1 ts2 h2
    constructor
    · rw [ih1, hts1, List.map_map]
      apply List.map_congr_left
      intro tb _
      rcases Decidable.em (tb.id = t) with hid | hid <;> simp [hid]
    · intro q hq
      rcases List.mem_cons.mp hq with hq | hq
      · subst hq
        exact ⟨c, t, hc, ht⟩
      · exact ih2 q hq


/-! ### Lemmas about the metrics recorder -/

theorem find?_eq_of_first (p : α → Bool) :
    ∀ (xs : List α) (i : Nat) (hi : i < xs.length),
      p (xs.get ⟨i, hi⟩) = true →
      (∀ j (hj : j < i), p (xs.get ⟨j, Nat.lt_trans hj hi⟩) = false) →
      xs.find? p = some (xs.get ⟨i, hi⟩)
  | [], i, hi => by
    intro _ _
    exact absurd hi (by simp)
  | x :: xs, i, hi => by
    intro hv hmin
    rcases i with _ | i
    · exact List.find?_cons_of_pos _ hv
    · have hx : p x = false := hmin 0 (Nat.succ_pos i)
      rw [List.find?_cons_of_neg _ (by simp [hx])]
      exact find?_eq_of_first p xs i (by simpa using hi) hv
        (fun j hj => hmin (j + 1) (Nat.succ_lt_succ hj))

theorem callVerdict_beam {V σ : Type} (au : String → String) (E : Evaluator V)
    (item : SpiderItem σ) (codes : List String) (oq : Option String) :
    callVerdict au E (MCall.beam item codes oq) =
      match codes.find? (fun code => E.isValidSQL code item.schema.db_id) with
      | some code => some (annotate (E.evaluate_one item.schema.db_id
          (item.orig.query_toks.map au) code) oq)
      | none =>
        match codes with
        | [] => none
        | c0 :: _ => some (annotate (E.evaluate_one item.schema.db_id
            (item.orig.query_toks.map au) c0) oq) := rfl

theorem runCalls_aux {V σ : Type} {au : String → String} {E : Evaluator V} :
    ∀ (calls : List (MCall σ)) (acc rs : List (RecordedResult V)),
      List.foldlM (runCall au E) acc calls = .ok rs →
      ∃ vs, rs = acc ++ vs ∧ calls.map (callVerdict au E) = vs.map some
  | [], acc, rs => by
    intro h
    rw [List.foldlM_nil] at h
    cases h
    exact ⟨[], by simp, rfl⟩
  | c :: rest, acc, rs => by
    intro h
    rw [List.foldlM_cons] at h
    rcases hstep : runCall au E acc c with e | acc1 <;> rw [hstep] at h
    · have h2 : (Except.error e : Except String (List (RecordedResult V))) = .ok rs := h
      cases h2
    have h2 : List.foldlM (runCall au E) acc1 rest = .ok rs := h
    have hone : ∃ v, acc1 = acc ++ [v] ∧ callVerdict au E c = some v := by
      rcases c with ⟨item, code, oq⟩ | ⟨item, codes, oq⟩
      · have h3 : (Except.ok (add_one E acc item code oq) :
            Except String (List (RecordedResult V))) = .ok acc1 := hstep
        cases h3
        exact ⟨_, rfl, rfl⟩
      · have h3 : add_beams au E acc item codes oq = .ok acc1 := hstep
        unfold add_beams at h3
        rcases hfind : codes.find? (fun code => E.isValidSQL code item.schema.db_id)
            with _ | cd <;> rw [hfind] at h3
        · rcases codes with _ | ⟨c0, cr⟩
          · have h4 : (Except.error "IndexError: list index out of range" :
                Except String (List (RecordedResult V))) = .ok acc1 := h3
            cases h4
          · have h4 : (Except.ok (acc ++ [annotate (E.evaluate_one item.schema.db_id
                (item.orig.query_toks.map au) c0) oq]) :
                Except String (List (RecordedResult V))) = .ok acc1 := h3
            cases h4
            refine ⟨_, rfl, ?_⟩
            rw [callVerdict_beam, hfind]
        · have h4 : (Except.ok (acc ++ [annotate (E.evaluate_one item.schema.db_id
              (item.orig.query_toks.map au) cd) oq]) :
              Except String (List (RecordedResult V))) = .ok acc1 := h3
          cases h4
          refine ⟨_, rfl, ?_⟩
          rw [callVerdict_beam, hfind]
    obtain ⟨v, hacc1, hv⟩ := hone
    obtain ⟨vs, hrs, hmap⟩ := runCalls_aux rest acc1 rs h2
    refine ⟨v :: vs, ?_, ?_⟩
    · rw [hrs, hacc1]
      simp
    · rw [List.map_cons, hv, hmap]
      rfl

/-! ### Claim theorems: the metrics recorder -/

/-- C2: when some candidate in a beam is reported valid, `add_beams`
evaluates exactly the first valid candidate, and the gold reference passed
to the evaluator is the underscore-normalised token list
`item.orig["query_toks"].map add_underscore`, not the raw token list that
`add_one` passes. -/
theorem add_beams_first_valid {V σ : Type} (au : String → String) (E : Evaluator V)
    (results : List (RecordedResult V)) (item : SpiderItem σ) (codes : List String)
    (oq : Option String) (i : Nat) (hi : i < codes.length)
    (hv : E.isValidSQL (codes.get ⟨i, hi⟩) item.schema.db_id = true)
    (hmin : ∀ j (hj : j < i),
      E.isValidSQL (codes.get ⟨j, Nat.lt_trans hj hi⟩) item.schema.db_id = false) :
    add_beams au E results item codes oq =
      .ok (results ++ [annotate (E.evaluate_one item.schema.db_id
        (item.orig.query_toks.map au) (codes.get ⟨i, hi⟩)) oq]) := by
  unfold add_beams
  rw [find?_eq_of_first (fun code => E.isValidSQL code item.schema.db_id) codes i hi hv hmin]

/-- C3: on a non-empty beam in which no candidate validates, `add_beams`
evaluates the first candidate against the underscore-normalised gold
tokens; and on any non-empty beam it appends exactly one verdict. -/
theorem add_beams_no_valid {V σ : Type} (au : String → String) (E : Evaluator V)
    (results : List (RecordedResult V)) (item : SpiderItem σ) (codes : List String)
    (oq : Option String) (hne : codes ≠ []) :
    ((∀ code ∈ codes, E.isValidSQL code item.schema.db_id = false) →
      add_beams au E results item codes oq =
        .ok (results ++ [annotate (E.evaluate_one item.schema.db_id
          (item.orig.query_toks.map au) (codes.head hne)) oq])) ∧
    (∃ r, add_beams au E results item codes oq = .ok (results ++ [r])) := by
  constructor
  · intro hall
    have hfind : codes.find? (fun code => E.isValidSQL code item.schema.db_id) = none := by
      rw [List.find?_eq_none]
      intro x hx
      simp [hall x hx]
    unfold add_beams
    rw [hfind]
    rcases codes with _ | ⟨c0, rest⟩
    · exact absurd rfl hne
    · rfl
  · unfold add_beams
    rcases hfind : codes.find? (fun code => E.isValidSQL code item.schema.db_id)
        with _ | cd
    · rcases codes with _ | ⟨c0, rest⟩
      · exact absurd rfl hne
      · exact ⟨_, rfl⟩
    · exact ⟨_, rfl⟩

/-- C9: `add_beams` on an empty candidate list raises IndexError on the
`inferred_codes[0]` fallback, so no verdict is recorded: the call produces
an error instead of an updated result sequence. -/
theorem add_beams_empty {V σ : Type} (au : String → String) (E : Evaluator V)
    (results : List (RecordedResult V)) (item : SpiderItem σ) (oq : Option String) :
    add_beams au E results item [] oq = .error "IndexError: list index out of range" := rfl

/-- C6: after a successful sequence of `add_one`/`add_beams` calls,
`finalize` returns a report whose `per_item` has exactly one verdict per
call, in call order, together with the evaluator's score summary. -/
theorem metrics_report {V S σ : Type} (au : String → String) (E : Evaluator V)
    (scores : S) (calls : List (MCall σ)) (rs : List (RecordedResult V))
    (h : runCalls au E calls = .ok rs) :
    (finalize scores rs).per_item.length = calls.length ∧
    (∀ i (hi : i < calls.length),
      (finalize scores rs).per_item[i]? = callVerdict au E (calls.get ⟨i, hi⟩)) ∧
    (finalize scores rs).total_scores = scores := by
  obtain ⟨vs, hrs, hmap⟩ := runCalls_aux calls [] rs h
  have hrs2 : rs = vs := by simpa using hrs
  subst hrs2
  have hlen2 : rs.length = calls.length := by
    have hmaplen := congrArg List.length hmap
    simpa using hmaplen.symm
  refine ⟨hlen2, ?_, rfl⟩
  intro i hi
  have hi2 : i < rs.length := by rw [hlen2]; exact hi
  have h1 : (calls.map (callVerdict au E))[i]? = (rs.map some)[i]? := by rw [hmap]
  rw [List.getElem?_map, List.getElem?_map, List.getElem?_eq_getElem hi,
    List.getElem?_eq_getElem hi2] at h1
  have h3 : callVerdict au E (calls.get ⟨i, hi⟩) = some (rs.get ⟨i, hi2⟩) := by
    simpa using h1
  show rs[i]? = _
  rw [List.getElem?_eq_getElem hi2, h3]
  simp [List.get_eq_getElem]


/-! ### Claim theorems: the foreign-key graph -/

theorem buildSchema_graph {au : String → String} {sd : SchemaDict} {s : Schema}
    (h : buildSchema au sd = .ok s) :
    s.orig = sd ∧
    s.foreign_key_graph =
      applyWrites DiGraph.empty
        (fkWrites (s.columns.map (fun c => c.table)) sd.foreign_keys) := by
  obtain ⟨columns, tables2, st, hbc, hpk, hfk, hs⟩ := buildSchema_ok h
  obtain ⟨hpres, hgr, hidx⟩ := fk_fold_result sd.foreign_keys columns DiGraph.empty st hfk
  have htv : st.1.map (fun c => c.table) = columns.map (fun c => c.table) := by
    have hms := congrArg (List.map Prod.snd) hpres
    simpa [List.map_map, Function.comp] using hms
  subst hs
  refine ⟨rfl, ?_⟩
  show st.2 = applyWrites DiGraph.empty
    (fkWrites (st.1.map (fun c => c.table)) sd.foreign_keys)
  rw [htv]
  exact hgr

/-- C10: in every loaded schema the foreign-key graph has at most one edge
per ordered table pair, and the `columns` metadata of edge `u → v` is the
metadata of the LAST `add_edge` write that touched `(u, v)` — earlier
foreign-key pairs between the same ordered tables are overwritten, so they
are not recoverable from the graph. -/
theorem fk_graph_last_write_wins (κ : Type) (au : String → String)
    (bfkm : SchemaDict → κ) (files : List (List SchemaDict)) (dbid : String)
    (s : Schema) (h : schemaOf (load_tables au bfkm files) dbid = some s) :
    ((s.foreign_key_graph.edges.map Prod.fst).Nodup) ∧
    (∀ u v, s.foreign_key_graph.edgeCols u v =
      (((fkWrites (s.columns.map (fun c => c.table)) s.orig.foreign_keys).filter
        (fun w => w.1 = (u, v))).getLast?).map Prod.snd) := by
  obtain ⟨sd, hsd, hid, hb⟩ := schemaOf_buildSchema h
  obtain ⟨horig, hgraph⟩ := buildSchema_graph hb
  rw [horig]
  constructor
  · rw [hgraph]
    exact nodup_keys_applyWrites _ DiGraph.empty (by simp [DiGraph.empty])
  · intro u v
    rw [hgraph, edgeCols_applyWrites]
    generalize ((fkWrites (s.columns.map (fun c => c.table)) sd.foreign_keys).filter
      (fun w => w.1 = (u, v))).getLast? = o
    cases o <;> rfl

/-- C10 witness: loading `wsd10` (two foreign-key pairs between tables 0
and 1) yields a graph with one edge per direction whose metadata is the
last write's. -/
theorem fk_graph_last_write_wins_witness :
    ((wS10.foreign_key_graph.edges.map Prod.fst).Nodup) ∧
    wS10.foreign_key_graph.edgeCols 0 1 =
      (((fkWrites (wS10.columns.map (fun c => c.table)) wS10.orig.foreign_keys).filter
        (fun w => w.1 = (0, 1))).getLast?).map Prod.snd ∧
    wS10.foreign_key_graph.edgeCols 0 1 = some (1, 2) := by
  have hs : schemaOf (load_tables (fun x => x) (fun _ : SchemaDict => ()) [[wsd10]])
      "w10" = some wS10 := by decide
  have h := fk_graph_last_write_wins Unit (fun x => x) (fun _ => ()) [[wsd10]] "w10" wS10 hs
  exact ⟨h.1, h.2 0 1, by decide⟩

/-- C1 counterexample: for the self-referencing foreign key `(1, 2)` of
`cexsd1` both writes land on the self-loop edge `0 → 0`, whose final
metadata `(2, 1)` is not the reversal of itself, refuting the claim that
every edge's metadata is the reversal of its reverse edge's metadata. -/
theorem fk_symmetry_counterexample : ¬ ClaimC1 := by
  intro hclaim
  have hs : schemaOf (load_tables (fun x => x) (fun _ : SchemaDict => ()) [[cexsd1]])
      "cex" = some cexS1 := by decide
  have h := hclaim Unit (fun x => x) (fun _ => ()) [[cexsd1]] "cex" cexS1 hs
  have h2 := (h 0 0).2 2 1 (by decide)
  exact absurd h2 (by decide)

/-- C1 (amended): edge existence is always symmetric, and for two DISTINCT
tables the reverse edge's column pair is the reversal of the forward
edge's.  For a self-loop (a foreign key within one table) the two writes
hit the same edge, which ends up holding the reversal of the last pair
processed (see C10), not necessarily the reversal of itself. -/
theorem fk_graph_symmetric (κ : Type) (au : String → String) (bfkm : SchemaDict → κ)
    (files : List (List SchemaDict)) (dbid : String) (s : Schema)
    (h : schemaOf (load_tables au bfkm files) dbid = some s) :
    ∀ u v, (s.foreign_key_graph.hasEdge u v = s.foreign_key_graph.hasEdge v u) ∧
      (u ≠ v → ∀ a b, s.foreign_key_graph.edgeCols u v = some (a, b) →
        s.foreign_key_graph.edgeCols v u = some (b, a)) := by
  obtain ⟨sd, hsd, hid, hb⟩ := schemaOf_buildSchema h
  obtain ⟨horig, hgraph⟩ := buildSchema_graph hb
  intro u v
  rcases Decidable.em (u = v) with huv | huv
  · subst huv
    exact ⟨rfl, fun hne => absurd rfl hne⟩
  · have hswap := edgeCols_fkWrites_swap (s.columns.map (fun c => c.table))
      sd.foreign_keys u v huv
    constructor
    · rw [hasEdge_eq_isSome, hasEdge_eq_isSome, hgraph, hswap]
      generalize (applyWrites DiGraph.empty (fkWrites (s.columns.map (fun c => c.table))
        sd.foreign_keys)).edgeCols u v = o
      cases o <;> rfl
    · intro _ a b hab
      rw [hgraph] at hab ⊢
      rw [hswap, hab]
      rfl

/-- C1 witness: on the cross-table foreign key of `wsd1` the amended
symmetry theorem yields both directions with mutually reversed metadata. -/
theorem fk_graph_symmetric_witness :
    (wS1.foreign_key_graph.hasEdge 0 1 = wS1.foreign_key_graph.hasEdge 1 0) ∧
    wS1.foreign_key_graph.edgeCols 1 0 = some (1, 0) := by
  have hs : schemaOf (load_tables (fun x => x) (fun _ : SchemaDict => ()) [[wsd1]])
      "wc1" = some wS1 := by decide
  have h := fk_graph_symmetric Unit (fun x => x) (fun _ => ()) [[wsd1]] "wc1" wS1 hs 0 1
  exact ⟨h.1, h.2 (by decide) 0 1 (by decide)⟩


/-! ### Claim theorems: `load_tables` error handling -/

theorem load_tables_ok_facts {κ : Type} {au : String → String} {bfkm : SchemaDict → κ}
    {files : List (List SchemaDict)} {res : LoadResult κ}
    (h : load_tables au bfkm files = .ok res) :
    res.schemas.map Prod.fst = files.flatten.map (fun sd => sd.db_id) ∧
    res.fkMaps.map Prod.fst = files.flatten.map (fun sd => sd.db_id) ∧
    (files.flatten.map (fun sd => sd.db_id)).Nodup ∧
    (∀ sd ∈ files.flatten, ∃ s, buildSchema au sd = .ok s) := by
  rw [load_tables_flatten] at h
  obtain ⟨h1, h2, h3, h4, h5⟩ := loadList_ok files.flatten ⟨[], []⟩ res h
  refine ⟨by simpa using h1, by simpa using h2, ?_, h4⟩
  have hnd := h5 (by simp)
  rw [h1] at hnd
  simpa using hnd

/-- C4 counterexample: `[[sdA], [sdBbad]]` has pairwise-distinct database
ids, yet `load_tables` raises (an IndexError on `sdBbad`'s primary key)
instead of returning a combined mapping, so distinctness alone does not
guarantee the claimed successful result. -/
theorem load_tables_distinct_counterexample : ¬ ClaimC4 := by
  intro hclaim
  obtain ⟨h1, h2⟩ := hclaim Unit (fun x => x) (fun _ => ()) [[sdA], [sdBbad]]
  obtain ⟨res, hres, _⟩ := h2 (by decide)
  have hload : load_tables (fun x : String => x) (fun _ : SchemaDict => ())
      [[sdA], [sdBbad]] = .error "IndexError: tuple index out of range" := rfl
  rw [hload] at hres
  cases hres

/-- C4 (amended): any repeated database id (across or within input files)
makes `load_tables` abort with an error — it never silently overwrites —
and whenever `load_tables` returns successfully (which additionally
requires every descriptor to be otherwise well formed), the ids were
pairwise distinct and both returned mappings contain an entry for every
database id of every input file. -/
theorem load_tables_duplicate_abort (κ : Type) (au : String → String)
    (bfkm : SchemaDict → κ) (files : List (List SchemaDict)) :
    (¬ ((files.flatten.map (fun sd => sd.db_id)).Nodup) →
      ∃ msg, load_tables au bfkm files = .error msg) ∧
    (∀ res, load_tables au bfkm files = .ok res →
      (files.flatten.map (fun sd => sd.db_id)).Nodup ∧
      (∀ sd ∈ files.flatten, sd.db_id ∈ res.schemas.map Prod.fst ∧
        sd.db_id ∈ res.fkMaps.map Prod.fst)) := by
  constructor
  · intro hdup
    rcases hload : load_tables au bfkm files with e | res
    · exact ⟨e, rfl⟩
    · obtain ⟨_, _, hnd, _⟩ := load_tables_ok_facts hload
      exact absurd hnd hdup
  · intro res hload
    obtain ⟨h1, h2, hnd, _⟩ := load_tables_ok_facts hload
    refine ⟨hnd, ?_⟩
    intro sd hsd
    constructor
    · rw [h1]
      exact List.mem_map.mpr ⟨sd, hsd, rfl⟩
    · rw [h2]
      exact List.mem_map.mpr ⟨sd, hsd, rfl⟩

/-- C4 witness: loading the same descriptor twice aborts; loading `sdA`
and `sdC` (disjoint ids) covers both ids in both mappings. -/
theorem load_tables_duplicate_abort_witness :
    (∃ msg, load_tables (fun x => x) (fun _ : SchemaDict => ())
      [[sdA], [sdA]] = .error msg) ∧
    ("a" ∈ wRes4.schemas.map Prod.fst ∧ "a" ∈ wRes4.fkMaps.map Prod.fst) := by
  constructor
  · exact (load_tables_duplicate_abort Unit (fun x => x) (fun _ => ())
      [[sdA], [sdA]]).1 (by decide)
  · exact ((load_tables_duplicate_abort Unit (fun x => x) (fun _ => ())
      [[sdA], [sdC]]).2 wRes4 rfl).2 sdA (by decide)

/-- C8: a primary-key or foreign-key column index outside Python's valid
index range for the built column sequence makes `load_tables` fail with an
error rather than silently skip the entry. -/
theorem load_tables_bad_index_aborts (κ : Type) (au : String → String)
    (bfkm : SchemaDict → κ) (files : List (List SchemaDict))
    (h : ∃ sd ∈ files.flatten,
      (∃ i ∈ sd.primary_keys, ¬ pyInRange (ncols sd) i) ∨
      (∃ p ∈ sd.foreign_keys, ¬ pyInRange (ncols sd) p.1 ∨ ¬ pyInRange (ncols sd) p.2)) :
    ∃ msg, load_tables au bfkm files = .error msg := by
  rcases hload : load_tables au bfkm files with e | res
  · exact ⟨e, rfl⟩
  obtain ⟨_, _, _, hall⟩ := load_tables_ok_facts hload
  obtain ⟨sd, hsd, hbad⟩ := h
  obtain ⟨s, hs⟩ := hall sd hsd
  obtain ⟨columns, tables2, st, hbc, hpk, hfk, _⟩ := buildSchema_ok hs
  have hclen : columns.length = ncols sd := by
    have hlen := (buildColumnsAux_ok 0 (colTriples sd) columns hbc).1
    rw [hlen, colTriples_length]
  have hpkr : ∀ i ∈ sd.primary_keys, pyInRange (ncols sd) i := by
    intro i hi
    obtain ⟨_, hforall⟩ := pk_fold_tables sd.primary_keys _ tables2 hpk
    obtain ⟨c, t, hc, _⟩ := hforall i hi
    have hsome : (pyIdx columns.length i).isSome := by
      rw [← pyGet_isSome, hc]
      rfl
    rw [hclen] at hsome
    exact (pyIdx_isSome_iff _ _).mp hsome
  have hfkr : ∀ p ∈ sd.foreign_keys, pyInRange (ncols sd) p.1 ∧ pyInRange (ncols sd) p.2 := by
    intro p hp
    obtain ⟨_, _, hforall⟩ := fk_fold_result sd.foreign_keys columns DiGraph.empty st hfk
    obtain ⟨hp1, hp2⟩ := hforall p hp
    rw [hclen] at hp1 hp2
    exact ⟨(pyIdx_isSome_iff _ _).mp hp1, (pyIdx_isSome_iff _ _).mp hp2⟩
  rcases hbad with ⟨i, hi, hbadi⟩ | ⟨p, hp, hbadp⟩
  · exact absurd (hpkr i hi) hbadi
  · rcases hbadp with hb | hb
    · exact absurd (hfkr p hp).1 hb
    · exact absurd (hfkr p hp).2 hb

/-- C8 witness: a primary-key index `0` into an empty column sequence
aborts the load. -/
theorem load_tables_bad_index_aborts_witness :
    ∃ msg, load_tables (fun x => x) (fun _ : SchemaDict => ()) [[sdBbad]] = .error msg :=
  load_tables_bad_index_aborts Unit (fun x => x) (fun _ => ()) [[sdBbad]] (by decide)


/-! ### Claim theorems: the dataset join -/

theorem spiderDatasetInit_aux {σ : Type} (schemas : List (String × Schema)) :
    ∀ (entries : List (ExampleEntry σ)) (items : List (SpiderItem σ)),
      spiderDatasetInit schemas entries = .ok items →
      items.length = entries.length ∧
      (∀ i (hi : i < entries.length), ∃ hi2 : i < items.length, ∃ s,
        lookupSchema schemas (entries.get ⟨i, hi⟩).db_id = some s ∧
        items.get ⟨i, hi2⟩ = { text := (entries.get ⟨i, hi⟩).question_toks,
                               code := (entries.get ⟨i, hi⟩).sql, schema := s,
                               orig := entries.get ⟨i, hi⟩, orig_schema := s.orig })
  | [], items => by
    intro h
    have h2 : (Except.ok ([] : List (SpiderItem σ)) :
        Except String (List (SpiderItem σ))) = .ok items := h
    cases h2
    exact ⟨rfl, fun i hi => absurd hi (by simp)⟩
  | e :: rest, items => by
    intro h
    rw [spiderDatasetInit, List.mapM_cons] at h
    have hjo : joinOne schemas e >>= (fun b =>
        rest.mapM (joinOne schemas) >>= (fun bs =>
          pure (b :: bs))) = .ok items := h
    clear h
    rcases he : lookupSchema schemas e.db_id with _ | s
    · rw [show joinOne schemas e = .error "KeyError: db_id" from by
        rw [joinOne, he]] at hjo
      have h2 : (Except.error "KeyError: db_id" :
          Except String (List (SpiderItem σ))) = .ok items := hjo
      cases h2
    · rw [show joinOne schemas e =
          .ok { text := e.question_toks, code := e.sql, schema := s,
                orig := e, orig_schema := s.orig } from by rw [joinOne, he]] at hjo
      have h2 : (rest.mapM (joinOne schemas)).bind (fun items2 =>
          Except.ok ({ text := e.question_toks, code := e.sql, schema := s,
                       orig := e, orig_schema := s.orig } :: items2)) = .ok items := hjo
      clear hjo
      rcases hrest : rest.mapM (joinOne schemas) with msg | items2 <;> rw [hrest] at h2
      · cases h2
      have h3 : (Except.ok ({ text := e.question_toks, code := e.sql, schema := s,
                              orig := e, orig_schema := s.orig } :: items2) :
          Except String (List (SpiderItem σ))) = .ok items := h2
      cases h3
      obtain ⟨ihlen, ih⟩ := spiderDatasetInit_aux schemas rest items2 hrest
      refine ⟨by simp [ihlen], ?_⟩
      intro i hi
      rcases i with _ | j
      · exact ⟨by simp, s, he, rfl⟩
      · have hj : j < rest.length := by simpa using hi
        obtain ⟨hj2, s2, hs2, hitem⟩ := ih j hj
        exact ⟨by simpa using Nat.succ_lt_succ hj2, s2, hs2, hitem⟩

/-- C7: an example entry whose database id is missing from the schema
mapping makes the join fail with a KeyError; on success every entry yields
one `SpiderItem` that references the looked-up `Schema` and that schema's
original raw descriptor. -/
theorem spiderDataset_join {σ : Type} (schemas : List (String × Schema))
    (entries : List (ExampleEntry σ)) :
    ((∃ e ∈ entries, lookupSchema schemas e.db_id = none) →
      ∃ msg, spiderDatasetInit schemas entries = .error msg) ∧
    (∀ items, spiderDatasetInit schemas entries = .ok items →
      items.length = entries.length ∧
      (∀ i (hi : i < entries.length), ∃ hi2 : i < items.length, ∃ s,
        lookupSchema schemas (entries.get ⟨i, hi⟩).db_id = some s ∧
        items.get ⟨i, hi2⟩ = { text := (entries.get ⟨i, hi⟩).question_toks,
                               code := (entries.get ⟨i, hi⟩).sql, schema := s,
                               orig := entries.get ⟨i, hi⟩, orig_schema := s.orig })) := by
  constructor
  · intro ⟨e, he, hmiss⟩
    rcases hinit : spiderDatasetInit schemas entries with msg | items
    · exact ⟨msg, rfl⟩
    · obtain ⟨_, hidx⟩ := spiderDatasetInit_aux schemas entries items hinit
      obtain ⟨⟨i, hi⟩, rfl⟩ := List.mem_iff_get.mp he
      obtain ⟨_, s, hs, _⟩ := hidx i hi
      rw [hmiss] at hs
      cases hs
  · exact spiderDatasetInit_aux schemas entries


/-! ### Shape of a built schema: tables and columns -/

theorem buildTables_ids (au : String → String) (sd : SchemaDict) :
    (buildTables au sd).map (fun tb => tb.id) =
      List.range (sd.table_names.zip sd.table_names_original).length := by
  unfold buildTables
  rw [List.map_map]
  have hcomp : ((fun tb : Table => tb.id) ∘ (fun p : Nat × (String × String) =>
      ({ id := p.1, name := pySplit p.2.1, unsplit_name := p.2.1,
         orig_name := au p.2.2 } : Table))) = Prod.fst := rfl
  rw [hcomp, List.enum_map_fst]

theorem buildTables_empty (au : String → String) (sd : SchemaDict) :
    ∀ tb ∈ buildTables au sd, tb.columns = ([] : List Nat) := by
  intro tb htb
  rcases List.mem_map.mp htb with ⟨p, _, rfl⟩
  rfl

theorem col_pair_transfer {xs ys : List Column}
    (h : xs.map (fun c => (c.id, c.table)) = ys.map (fun c => (c.id, c.table)))
    (j : Nat) (hx : j < xs.length) :
    ∃ hy : j < ys.length, (xs.get ⟨j, hx⟩).id = (ys.get ⟨j, hy⟩).id ∧
      (xs.get ⟨j, hx⟩).table = (ys.get ⟨j, hy⟩).table := by
  have hlen : xs.length = ys.length := by
    have hl := congrArg List.length h
    simpa using hl
  have hy : j < ys.length := by rw [← hlen]; exact hx
  have hj := congrArg (fun l => l[j]?) h
  simp only [List.getElem?_map] at hj
  rw [List.getElem?_eq_getElem hx, List.getElem?_eq_getElem hy] at hj
  have hpair : ((xs.get ⟨j, hx⟩).id, (xs.get ⟨j, hx⟩).table) =
      ((ys.get ⟨j, hy⟩).id, (ys.get ⟨j, hy⟩).table) := by
    simpa [List.get_eq_getElem] using hj
  rw [Prod.mk.injEq] at hpair
  exact ⟨hy, hpair.1, hpair.2⟩

theorem filter_map_id_of_map_eq {xs ys : List Column}
    (h : xs.map (fun c => (c.id, c.table)) = ys.map (fun c => (c.id, c.table))) (t : Nat) :
    (xs.filter (fun c => c.table = some t)).map (fun c => c.id) =
      (ys.filter (fun c => c.table = some t)).map (fun c => c.id) := by
  have e1 : ∀ zs : List Column,
      (zs.filter (fun c => c.table = some t)).map (fun c => c.id) =
      ((zs.map (fun c => (c.id, c.table))).filter
        (fun p => p.2 = some t)).map Prod.fst := by
    intro zs
    induction zs with
    | nil => rfl
    | cons z zs ih =>
      rw [List.map_cons, List.filter_cons, List.filter_cons]
      rcases hz : decide (z.table = some t) with _ | _
      · rw [if_neg (by exact Bool.false_ne_true), if_neg (by exact Bool.false_ne_true)]
        exact ih
      · rw [if_pos rfl, if_pos rfl, List.map_cons, List.map_cons, ih]
  rw [e1 xs, e1 ys, h]

theorem map_id_eq_range {cols : List Column}
    (hid : ∀ j (hj : j < cols.length), (cols.get ⟨j, hj⟩).id = j) :
    cols.map (fun c => c.id) = List.range cols.length := by
  apply List.ext_getElem
  · simp
  · intro i h1 h2
    simp only [List.getElem_map, List.getElem_range]
    have := hid i (by simpa using h1)
    simpa [List.get_eq_getElem] using this

theorem col_id_injective {cols : List Column}
    (hid : ∀ j (hj : j < cols.length), (cols.get ⟨j, hj⟩).id = j) :
    ∀ c ∈ cols, ∀ c2 ∈ cols, c.id = c2.id → c = c2 := by
  intro c hc c2 hc2 heq
  obtain ⟨⟨j, hj⟩, hcj⟩ := List.mem_iff_get.mp hc
  obtain ⟨⟨j2, hj2⟩, hcj2⟩ := List.mem_iff_get.mp hc2
  have h1 : c.id = j := by rw [← hcj]; exact hid j hj
  have h2 : c2.id = j2 := by rw [← hcj2]; exact hid j2 hj2
  have : j = j2 := by rw [← h1, ← h2, heq]
  subst this
  rw [← hcj, ← hcj2]


theorem buildSchema_parts {au : String → String} {sd : SchemaDict} {s : Schema}
    (h : buildSchema au sd = .ok s) :
    ∃ columns : List Column,
      buildColumns au (buildTables au sd).length sd = .ok columns ∧
      s.columns.map (fun c => (c.id, c.table)) = columns.map (fun c => (c.id, c.table)) ∧
      s.tables.map (fun tb => (tb.id, tb.columns)) =
        (buildTables au sd).map (fun tb => (tb.id,
          (columns.filter (fun c => c.table = some tb.id)).map (fun c => c.id))) := by
  obtain ⟨columns, tables2, st, hbc, hpk, hfk, hs⟩ := buildSchema_ok h
  obtain ⟨hpres, _, _⟩ := fk_fold_result sd.foreign_keys columns DiGraph.empty st hfk
  obtain ⟨htab, _⟩ := pk_fold_tables sd.primary_keys _ tables2 hpk
  subst hs
  refine ⟨columns, hbc, hpres, ?_⟩
  show tables2.map (fun tb => (tb.id, tb.columns)) = _
  rw [htab, linkColumns_eq, List.map_map]
  apply List.map_congr_left
  intro tb htb
  have hempty : tb.columns = [] := buildTables_empty au sd tb htb
  simp [hempty]

theorem buildSchema_columns {au : String → String} {sd : SchemaDict} {s : Schema}
    (h : buildSchema au sd = .ok s) :
    s.columns.length = ncols sd ∧
    ∀ j (hj : j < s.columns.length),
      (s.columns.get ⟨j, hj⟩).id = j ∧
      (∃ hn : j < sd.column_names.length,
        ((s.columns.get ⟨j, hj⟩).table = none ↔ (sd.column_names.get ⟨j, hn⟩).1 < 0) ∧
        (∀ tt, (s.columns.get ⟨j, hj⟩).table = some tt →
          (sd.column_names.get ⟨j, hn⟩).1 = (tt : Int) ∧
          tt < (buildTables au sd).length)) := by
  obtain ⟨columns, hbc, hpres, _⟩ := buildSchema_parts h
  obtain ⟨hlen, hfacts⟩ := buildColumnsAux_ok 0 (colTriples sd) columns hbc
  have hslen : s.columns.length = columns.length := by
    have hl := congrArg List.length hpres
    simpa using hl
  constructor
  · rw [hslen, hlen, colTriples_length]
  · intro j hj
    obtain ⟨hy, hideq, htabeq⟩ := col_pair_transfer hpres j hj
    have hjt : j < (colTriples sd).length := by rw [← hlen]; exact hy
    obtain ⟨hcj, hid, htab, hsome⟩ := hfacts j hjt
    obtain ⟨hn, hfst⟩ := colTriples_fst sd j hjt
    refine ⟨?_, hn, ?_, ?_⟩
    · rw [hideq, show (columns.get ⟨j, hy⟩) = columns.get ⟨j, hcj⟩ from rfl, hid]
      omega
    · rw [htabeq, show (columns.get ⟨j, hy⟩) = columns.get ⟨j, hcj⟩ from rfl, htab, hfst]
    · intro tt hty
      rw [htabeq, show (columns.get ⟨j, hy⟩) = columns.get ⟨j, hcj⟩ from rfl] at hty
      obtain ⟨he, hlt⟩ := hsome tt hty
      rw [hfst] at he
      exact ⟨he, hlt⟩

/-- C5: in every loaded schema, each table's column list is exactly the
ids of the columns that reference it, in descriptor order; column ids are
positions; a column is ownerless iff its descriptor table index is
negative; an ownerless column is in no table's list; and an owned column
occurs exactly once in its owner's list and nowhere else. -/
theorem schema_column_ownership (κ : Type) (au : String → String)
    (bfkm : SchemaDict → κ) (files : List (List SchemaDict)) (dbid : String)
    (s : Schema) (h : schemaOf (load_tables au bfkm files) dbid = some s) :
    (∀ tb ∈ s.tables,
      tb.columns = (s.columns.filter (fun c => c.table = some tb.id)).map (fun c => c.id)) ∧
    (∀ j (hj : j < s.columns.length), (s.columns.get ⟨j, hj⟩).id = j) ∧
    (∀ j (hj : j < s.columns.length), ∃ hn : j < s.orig.column_names.length,
      ((s.columns.get ⟨j, hj⟩).table = none ↔ (s.orig.column_names.get ⟨j, hn⟩).1 < 0)) ∧
    (∀ c ∈ s.columns, c.table = none → ∀ tb ∈ s.tables, c.id ∉ tb.columns) ∧
    (∀ c ∈ s.columns, ∀ t, c.table = some t →
      (∃ tb ∈ s.tables, tb.id = t) ∧
      (∀ tb ∈ s.tables, tb.columns.count c.id = if tb.id = t then 1 else 0)) := by
  obtain ⟨sd, hsd, hdbid, hb⟩ := schemaOf_buildSchema h
  have horig : s.orig = sd := (buildSchema_graph hb).1
  obtain ⟨columns, hbc, hpres, htables⟩ := buildSchema_parts hb
  obtain ⟨hclen, hcolfacts⟩ := buildSchema_columns hb
  have hids : ∀ j (hj : j < s.columns.length), (s.columns.get ⟨j, hj⟩).id = j :=
    fun j hj => (hcolfacts j hj).1
  have hinj := col_id_injective hids
  have hA : ∀ tb ∈ s.tables,
      tb.columns = (s.columns.filter (fun c => c.table = some tb.id)).map (fun c => c.id) := by
    intro tb htb
    have hmem : (tb.id, tb.columns) ∈ s.tables.map (fun tb => (tb.id, tb.columns)) :=
      List.mem_map.mpr ⟨tb, htb, rfl⟩
    rw [htables] at hmem
    rcases List.mem_map.mp hmem with ⟨tb0, htb0, heq⟩
    rw [Prod.mk.injEq] at heq
    obtain ⟨hid0, hcols0⟩ := heq
    rw [← hcols0, ← hid0]
    exact (filter_map_id_of_map_eq hpres tb0.id).symm
  have hD : ∀ c ∈ s.columns, c.table = none → ∀ tb ∈ s.tables, c.id ∉ tb.columns := by
    intro c hc hnone tb htb hmem
    rw [hA tb htb] at hmem
    rcases List.mem_map.mp hmem with ⟨c2, hc2, hcid⟩
    have hc2tab : c2.table = some tb.id := by
      simpa using List.of_mem_filter hc2
    have hc2eq : c2 = c := hinj c2 (List.mem_of_mem_filter hc2) c hc hcid
    rw [hc2eq, hnone] at hc2tab
    cases hc2tab
  have hE : ∀ c ∈ s.columns, ∀ t, c.table = some t →
      (∃ tb ∈ s.tables, tb.id = t) ∧
      (∀ tb ∈ s.tables, tb.columns.count c.id = if tb.id = t then 1 else 0) := by
    intro c hc t hct
    constructor
    · obtain ⟨⟨j, hj⟩, hcj⟩ := List.mem_iff_get.mp hc
      obtain ⟨_, hn, _, hsome⟩ := hcolfacts j hj
      have hget : (s.columns.get ⟨j, hj⟩).table = some t := by rw [hcj]; exact hct
      have htlen : t < (buildTables au sd).length := (hsome t hget).2
      have hidsmap : s.tables.map (fun tb => tb.id) =
          List.range (sd.table_names.zip sd.table_names_original).length := by
        have h1 := congrArg (List.map Prod.fst) htables
        rw [List.map_map, List.map_map] at h1
        have e1 : (Prod.fst ∘ fun tb : Table => (tb.id, tb.columns)) =
            fun tb : Table => tb.id := rfl
        have e2 : (Prod.fst ∘ fun tb : Table => (tb.id,
            (columns.filter (fun c => c.table = some tb.id)).map (fun c => c.id))) =
            fun tb : Table => tb.id := rfl
        rw [e1, e2] at h1
        rw [h1, buildTables_ids]
      have hlen3 : (buildTables au sd).length =
          (sd.table_names.zip sd.table_names_original).length := by
        unfold buildTables
        simp
      have htmem : t ∈ s.tables.map (fun tb => tb.id) := by
        rw [hidsmap, List.mem_range, ← hlen3]
        exact htlen
      rcases List.mem_map.mp htmem with ⟨tb, htb, hid⟩
      exact ⟨tb, htb, hid⟩
    · intro tb htb
      rw [hA tb htb]
      rcases Decidable.em (tb.id = t) with hidt | hidt
      · rw [if_pos hidt]
        have hcf : c ∈ s.columns.filter (fun c2 => c2.table = some tb.id) := by
          rw [List.mem_filter]
          exact ⟨hc, by simp [hct, hidt]⟩
        have hcidmem : c.id ∈ (s.columns.filter
            (fun c2 => c2.table = some tb.id)).map (fun c2 => c2.id) :=
          List.mem_map.mpr ⟨c, hcf, rfl⟩
        have hsubm : ((s.columns.filter (fun c2 => c2.table = some tb.id)).map
            (fun c2 : Column => c2.id)).Sublist (s.columns.map (fun c2 : Column => c2.id)) :=
          (List.filter_sublist _).map (fun c2 : Column => c2.id)
        have hnodupmap : (s.columns.map (fun c2 : Column => c2.id)).Nodup := by
          rw [map_id_eq_range hids]
          exact List.nodup_range _
        exact List.count_eq_one_of_mem (hnodupmap.sublist hsubm) hcidmem
      · rw [if_neg hidt, List.count_eq_zero]
        intro hmem
        rcases List.mem_map.mp hmem with ⟨c2, hc2, hcid⟩
        have hc2tab : c2.table = some tb.id := by
          simpa using List.of_mem_filter hc2
        have hc2eq : c2 = c := hinj c2 (List.mem_of_mem_filter hc2) c hc hcid
        rw [hc2eq, hct] at hc2tab
        have : t = tb.id := by cases hc2tab; rfl
        exact hidt this.symm
  refine ⟨hA, hids, ?_, hD, hE⟩
  intro j hj
  obtain ⟨_, hn, hiff, _⟩ := hcolfacts j hj
  rw [horig]
  exact ⟨hn, hiff⟩


/-! ### Witnesses for the recorder, join and ownership claims -/

/-- C2 witness: candidate `"bad sql"` fails validation, `"good"` passes,
and the evaluator receives the underscored gold tokens. -/
theorem add_beams_first_valid_witness :
    add_beams (fun s => "_" ++ s) wE2 [] wItemM ["bad sql", "good"] none =
      .ok [⟨("db", ["_select", "_col"], "good"), none⟩] := by
  have h := add_beams_first_valid (fun s => "_" ++ s) wE2 [] wItemM ["bad sql", "good"]
    none 1 (by decide) (by decide) (by decide)
  exact h.trans (by rfl)

/-- C3 witness: with no valid candidate the first candidate is evaluated
against the underscored gold tokens and exactly one verdict is recorded. -/
theorem add_beams_no_valid_witness :
    add_beams (fun s => "_" ++ s) wE3 [] wItemM ["p1", "p2"] none =
      .ok [⟨("db", ["_select", "_col"], "p1"), none⟩] := by
  have h := (add_beams_no_valid (fun s => "_" ++ s) wE3 [] wItemM ["p1", "p2"] none
    (by decide)).1 (by decide)
  exact h.trans (by rfl)

/-- C6 witness: one `add_one` call and one `add_beams` call yield a
two-element `per_item` in call order plus the score summary. -/
theorem metrics_report_witness :
    (finalize (7 : Nat) wRs6).per_item.length = wCalls6.length ∧
    (finalize (7 : Nat) wRs6).per_item[0]? =
      callVerdict (fun s => "_" ++ s) wE6 (wCalls6.get ⟨0, by decide⟩) ∧
    (finalize (7 : Nat) wRs6).total_scores = 7 := by
  have h := metrics_report (fun s => "_" ++ s) wE6 (7 : Nat) wCalls6 wRs6 rfl
  exact ⟨h.1, h.2.1 0 (by decide), h.2.2⟩

/-- C7 witness: an entry with an unknown database id aborts the join; the
entry with the known id yields the item holding that schema and its raw
descriptor. -/
theorem spiderDataset_join_witness :
    (∃ msg, spiderDatasetInit wSchemas7 [wEnt7bad] = .error msg) ∧
    wItems7.length = [wEntM].length ∧
    (∃ s, lookupSchema wSchemas7 wEntM.db_id = some s ∧
      wItemM = { text := wEntM.question_toks, code := wEntM.sql, schema := s,
                 orig := wEntM, orig_schema := s.orig }) := by
  have herr := (spiderDataset_join wSchemas7 [wEnt7bad]).1 ⟨wEnt7bad, by decide, by decide⟩
  obtain ⟨hlen, hidx⟩ := (spiderDataset_join wSchemas7 [wEntM]).2 wItems7 rfl
  obtain ⟨hi2, s, hs, hitem⟩ := hidx 0 (by decide)
  exact ⟨herr, hlen, s, hs, hitem⟩

/-- C5 witness: on the spec's §8 example the table `t` owns exactly the
column with id 1, the wildcard column belongs to no table, and the owned
column appears exactly once. -/
theorem schema_column_ownership_witness :
    wT5.columns = (wS5.columns.filter (fun c => c.table = some wT5.id)).map (fun c => c.id) ∧
    (0 : Nat) ∉ wT5.columns ∧
    wT5.columns.count 1 = 1 := by
  have hs : schemaOf (load_tables (fun x => x) (fun _ : SchemaDict => ()) [[wsd5]]) "d1" =
      some wS5 := by decide
  have h := schema_column_ownership Unit (fun x => x) (fun _ => ()) [[wsd5]] "d1" wS5 hs
  refine ⟨h.1 wT5 (by decide), ?_, ?_⟩
  · have hD := h.2.2.2.1
    have h0 := hD (wS5.columns.get ⟨0, by decide⟩) (by decide) (by decide) wT5 (by decide)
    simpa using h0
  · have hE := h.2.2.2.2
    have hcount := (hE (wS5.columns.get ⟨1, by decide⟩) (by decide) 0 (by decide)).2
      wT5 (by decide)
    calc wT5.columns.count 1 = if wT5.id = 0 then 1 else 0 := hcount
    _ = 1 := by decide

end Spider
